import Mathlib

/-!
Verification of the Minirel buffer manager (`src/buf.C`).

The development shallowly embeds the buffer manager's state and its public
operations as executable Lean functions, translated from the C source:
`BufMgr::allocBuf`, `BufMgr::readPage`, `BufMgr::unPinPage`,
`BufMgr::allocPage`, `BufMgr::disposePage`, `BufMgr::flushFile`.

The repository's header `buf.h` (the `BufDesc::Set`/`BufDesc::Clear`
mutators, the `BufHashTbl` hash table and `advanceClock`) is not part of the
sources; those pieces are modelled from the specification, as marked in
their doc comments.

File handles (`File*`) are modelled as natural-number identities; disk pages
are modelled as abstract contents (`Page := Nat`); the external paged-file
collaborator is an explicit `Disk` state with failure-injection oracles and
a log of all `writePage` calls.
-/

/-- Status codes returned by the buffer manager, from the Minirel `Status`
enumeration (only the constructors `buf.C` uses). -/
inductive Status where
  | OK
  | UNIXERR
  | BUFFEREXCEEDED
  | HASHNOTFOUND
  | HASHTBLERROR
  | PAGENOTPINNED
  | PAGEPINNED
  | BADBUFFER
deriving DecidableEq, Repr

/-- Page contents are abstract; a natural number stands for one page's
worth of bytes. -/
abbrev Page := Nat

/-- One frame descriptor (`class BufDesc` of `buf.h`): the per-frame
metadata manipulated by `buf.C`. `file` is the owning `File*`, modelled as
an optional file identity (`none` stands for `NULL`). -/
structure BufDesc where
  frameNo : Nat
  file : Option Nat
  pageNo : Int
  pinCnt : Int
  dirty : Bool
  refbit : Bool
  valid : Bool
deriving DecidableEq, Repr

instance : Inhabited BufDesc :=
  ⟨{ frameNo := 0, file := none, pageNo := -1, pinCnt := 0,
     dirty := false, refbit := false, valid := false }⟩

/-- Modelled from the spec: `BufDesc::Clear()` from `buf.h` (not under
`src/`) resets a frame to the unused state — no owner, no page, pin count
zero, all flags false (spec §3: "`valid == false` implies `pinCount == 0`,
`dirty == false`, `ownerFile/pageNumber` are unset"). -/
def BufDesc.Clear (b : BufDesc) : BufDesc :=
  { b with file := none, pageNo := -1, pinCnt := 0,
           dirty := false, refbit := false, valid := false }

/-- Modelled from the spec: `BufDesc::Set(file, pageNo)` from `buf.h` (not
under `src/`) initializes a frame's metadata for a newly cached page (spec
§4.2: "owner, pageNumber, `pinCount = 1`, `dirty = false`,
`referenced = true`, `valid = true`"). -/
def BufDesc.Set (b : BufDesc) (f : Nat) (p : Int) : BufDesc :=
  { b with file := some f, pageNo := p, pinCnt := 1,
           dirty := false, refbit := true, valid := true }

/-- The Page Index: an association list from (file identity, page number)
to frame index. -/
abbrev HashTbl := List ((Nat × Int) × Nat)

/-- Modelled from the spec: `BufHashTbl::lookup` from `buf.h` (not under
`src/`) — find the frame holding (file, pageNo), reporting absent keys
distinctly (spec §2: the Page Index supports lookup and must "report
absent keys distinctly"). -/
def htLookup : HashTbl → Nat → Int → Option Nat
  | [], _, _ => none
  | (k, v) :: rest, f, p => if k = (f, p) then some v else htLookup rest f p

/-- Modelled from the spec: `BufHashTbl::insert` from `buf.h` (not under
`src/`) — insert a new (file, pageNo) → frame entry, rejecting duplicate
keys (spec §2: the Page Index "must reject duplicate keys"). -/
def htInsert (ht : HashTbl) (f : Nat) (p : Int) (fr : Nat) : Status × HashTbl :=
  match htLookup ht f p with
  | some _ => (Status.HASHTBLERROR, ht)
  | none => (Status.OK, ((f, p), fr) :: ht)

/-- Modelled from the spec: `BufHashTbl::remove` from `buf.h` (not under
`src/`) — remove the entry for (file, pageNo), reporting an absent key. -/
def htRemove : HashTbl → Nat → Int → Status × HashTbl
  | [], _, _ => (Status.HASHNOTFOUND, [])
  | (k, v) :: rest, f, p =>
    if k = (f, p) then (Status.OK, rest)
    else
      let r := htRemove rest f p
      (r.1, (k, v) :: r.2)

/-- The external paged-file collaborator (spec §6): disk contents per
(file, page number), a log of every `write_page` call, failure-injection
oracles for each contract operation, and the next page number each file
hands out on allocation. -/
structure Disk where
  data : Nat → Int → Page
  log : List (Nat × Int × Page)
  readFails : Nat → Int → Bool
  writeFails : Nat → Int → Bool
  allocFails : Nat → Bool
  disposeFails : Nat → Int → Bool
  nextPage : Nat → Int

/-- `File::writePage` of the external contract: persist a buffer to
(f, p); every call is logged; on injected failure the disk contents are
unchanged. -/
def Disk.writePage (d : Disk) (f : Nat) (p : Int) (c : Page) : Status × Disk :=
  if d.writeFails f p then
    (Status.UNIXERR, { d with log := d.log ++ [(f, p, c)] })
  else
    (Status.OK,
      { d with
        data := fun F P => if F = f ∧ P = p then c else d.data F P,
        log := d.log ++ [(f, p, c)] })

/-- `File::readPage` of the external contract: read the on-disk bytes of
(f, p), or fail when the injection oracle says so. -/
def Disk.readPage (d : Disk) (f : Nat) (p : Int) : Status × Page :=
  if d.readFails f p then (Status.UNIXERR, 0) else (Status.OK, d.data f p)

/-- `File::allocatePage` of the external contract: reserve the file's next
page number. -/
def Disk.allocatePage (d : Disk) (f : Nat) : Status × Int × Disk :=
  if d.allocFails f then (Status.UNIXERR, 0, d)
  else
    (Status.OK, d.nextPage f,
      { d with nextPage := fun F => if F = f then d.nextPage F + 1 else d.nextPage F })

/-- `File::disposePage` of the external contract: release a page number on
disk. -/
def Disk.disposePage (d : Disk) (f : Nat) (p : Int) : Status × Disk :=
  if d.disposeFails f p then (Status.UNIXERR, d) else (Status.OK, d)

/-- The buffer manager state (`class BufMgr`): the frame descriptor table,
the pool of page buffers (index-aligned with the table), the Page Index,
and the clock hand. -/
structure BufMgr where
  numBufs : Nat
  bufTable : List BufDesc
  bufPool : List Page
  hashTable : HashTbl
  clockHand : Nat

/-- `BufMgr::BufMgr(bufs)`: all frames zeroed and invalid (the constructor
memsets the table, sets each `frameNo` and `valid = false`), an empty
pool and hash table, and the clock hand at `bufs - 1`. -/
def BufMgr.init (bufs : Nat) : BufMgr :=
  { numBufs := bufs
    bufTable := (List.range bufs).map (fun i =>
      { frameNo := i, file := none, pageNo := 0, pinCnt := 0,
        dirty := false, refbit := false, valid := false })
    bufPool := List.replicate bufs 0
    hashTable := []
    clockHand := bufs - 1 }

/-- Read the frame descriptor at index `i` (`bufTable[i]`). -/
def frameAt (m : BufMgr) (i : Nat) : BufDesc := m.bufTable.getD i default

/-- Read the page buffer at index `i` (`bufPool[i]`). -/
def poolAt (m : BufMgr) (i : Nat) : Page := m.bufPool.getD i 0

/-- Overwrite the frame descriptor at index `i`. -/
def setFrame (m : BufMgr) (i : Nat) (b : BufDesc) : BufMgr :=
  { m with bufTable := m.bufTable.set i b }

/-- Overwrite the page buffer at index `i` (a caller writing through the
returned `Page*`). -/
def setPool (m : BufMgr) (i : Nat) (c : Page) : BufMgr :=
  { m with bufPool := m.bufPool.set i c }

/-- Modelled from the spec: `BufMgr::advanceClock()` from `buf.h` (not
under `src/`) — the hand wraps over `[0, N)`, "advanced by exactly one
position per frame examined" (spec §3). -/
def BufMgr.advanceClock (m : BufMgr) : BufMgr :=
  { m with clockHand := (m.clockHand + 1) % m.numBufs }

/-- The loop body of `BufMgr::allocBuf` (`buf.C` lines 99-159). The fuel
argument is `2 * numBufs - frameCount`: the C loop runs `while
(frameCount < 2 * numBufs)` and increments `frameCount` exactly on the
two continue branches (reference-bit clear, pinned skip), so fuel `0` is
the loop exit returning `BUFFEREXCEEDED`. The returned `Nat` is the
`frame` out-parameter, meaningful only on `OK` (`0` is a dummy on the
error returns, where the C code leaves the caller's variable unset).
The `none`-owner branch is unreachable for valid frames in reachable
states (valid frames always have an owning file); clearing `dirty` before
`Clear()` is absorbed because `Clear` overwrites the dirty bit. -/
def BufMgr.allocBufAux : Nat → BufMgr → Disk → Status × Nat × BufMgr × Disk
  | 0, m, d => (Status.BUFFEREXCEEDED, 0, m, d)
  | fuel + 1, m, d =>
    let fs := frameAt m m.clockHand
    if fs.valid = false then
      (Status.OK, m.clockHand, m.advanceClock, d)
    else if fs.refbit = true then
      BufMgr.allocBufAux fuel
        ((setFrame m m.clockHand { fs with refbit := false }).advanceClock) d
    else if 0 < fs.pinCnt then
      BufMgr.allocBufAux fuel m.advanceClock d
    else
      match fs.file with
      | none => (Status.UNIXERR, 0, m, d)
      | some f =>
        let wres : Status × Disk :=
          if fs.dirty = true then d.writePage f fs.pageNo (poolAt m m.clockHand)
          else (Status.OK, d)
        if wres.1 ≠ Status.OK then
          (Status.UNIXERR, 0, m, wres.2)
        else
          let m2 := { m with hashTable := (htRemove m.hashTable f fs.pageNo).2 }
          let m3 := setFrame m2 m.clockHand fs.Clear
          (Status.OK, m.clockHand, m3.advanceClock, wres.2)

/-- `BufMgr::allocBuf(frame)`: run the clock sweep with the full
`2 * numBufs` examination budget. -/
def BufMgr.allocBuf (m : BufMgr) (d : Disk) : Status × Nat × BufMgr × Disk :=
  BufMgr.allocBufAux (2 * m.numBufs) m d

/-- `BufMgr::readPage(file, PageNo, page)` (`buf.C` lines 173-237). The
returned `Option Nat` is the `page` out-parameter: `some fr` stands for
`&bufPool[fr]`. -/
def BufMgr.readPage (m : BufMgr) (d : Disk) (file : Nat) (pageNo : Int) :
    Status × Option Nat × BufMgr × Disk :=
  match htLookup m.hashTable file pageNo with
  | none =>
    let a := m.allocBuf d
    if a.1 ≠ Status.OK then (a.1, none, a.2.2.1, a.2.2.2)
    else
      let frame := a.2.1
      let m1 := a.2.2.1
      let d1 := a.2.2.2
      let rd := d1.readPage file pageNo
      if rd.1 ≠ Status.OK then
        (rd.1, none, setFrame m1 frame (frameAt m1 frame).Clear, d1)
      else
        let m2 := setPool m1 frame rd.2
        let ins := htInsert m2.hashTable file pageNo frame
        if ins.1 ≠ Status.OK then
          (Status.HASHTBLERROR, none, setFrame m2 frame (frameAt m2 frame).Clear, d1)
        else
          let m3 := { m2 with hashTable := ins.2 }
          let m4 := setFrame m3 frame ((frameAt m3 frame).Set file pageNo)
          (Status.OK, some frame, m4, d1)
  | some frameNo =>
    let fs := frameAt m frameNo
    (Status.OK, some frameNo,
      setFrame m frameNo { fs with refbit := true, pinCnt := fs.pinCnt + 1 }, d)

/-- `BufMgr::unPinPage(file, PageNo, dirty)` (`buf.C` lines 250-279). -/
def BufMgr.unPinPage (m : BufMgr) (file : Nat) (pageNo : Int) (dirty : Bool) :
    Status × BufMgr :=
  match htLookup m.hashTable file pageNo with
  | none => (Status.HASHNOTFOUND, m)
  | some frameNo =>
    let fs := frameAt m frameNo
    if fs.pinCnt = 0 then (Status.PAGENOTPINNED, m)
    else
      let fs1 := { fs with pinCnt := fs.pinCnt - 1 }
      let fs2 := if dirty then { fs1 with dirty := true } else fs1
      (Status.OK, setFrame m frameNo fs2)

/-- `BufMgr::allocPage(file, pageNo, page)` (`buf.C` lines 293-326). The
returned tuple carries the status, the `pageNo` out-parameter, and the
`page` out-parameter as a frame index (dummy `0` on errors). Note the
source does not clear the frame on a hash-insert failure here. -/
def BufMgr.allocPage (m : BufMgr) (d : Disk) (file : Nat) :
    Status × Int × Nat × BufMgr × Disk :=
  let al := d.allocatePage file
  if al.1 ≠ Status.OK then (al.1, al.2.1, 0, m, al.2.2)
  else
    let pageNo := al.2.1
    let d1 := al.2.2
    let a := m.allocBuf d1
    if a.1 ≠ Status.OK then (a.1, pageNo, 0, a.2.2.1, a.2.2.2)
    else
      let frameNo := a.2.1
      let m1 := a.2.2.1
      let d2 := a.2.2.2
      let ins := htInsert m1.hashTable file pageNo frameNo
      if ins.1 ≠ Status.OK then (ins.1, pageNo, 0, m1, d2)
      else
        let m2 := { m1 with hashTable := ins.2 }
        let m3 := setFrame m2 frameNo
          { (frameAt m2 frameNo).Set file pageNo with frameNo := frameNo }
        (Status.OK, pageNo, frameNo, m3, d2)

/-- `BufMgr::disposePage(file, pageNo)` (`buf.C` lines 336-351): clear the
frame if resident (without checking the pin count), remove the index
entry (ignoring its status), then dispose the page on disk and return
that status. -/
def BufMgr.disposePage (m : BufMgr) (d : Disk) (file : Nat) (pageNo : Int) :
    Status × BufMgr × Disk :=
  let m1 :=
    match htLookup m.hashTable file pageNo with
    | some frameNo => setFrame m frameNo (frameAt m frameNo).Clear
    | none => m
  let m2 := { m1 with hashTable := (htRemove m1.hashTable file pageNo).2 }
  let dr := d.disposePage file pageNo
  (dr.1, m2, dr.2)

/-- The loop body of `BufMgr::flushFile` (`buf.C` lines 360-398): scan
frame `i` with `rem` frames left to visit. A resident frame of `file`
aborts with `PAGEPINNED` if pinned, is written back if dirty (aborting on
a write error), then has its index entry removed and its owner, page
number and validity cleared (the pin count and reference bit are left
as-is by the source). A non-valid frame still tagged with `file` aborts
with `BADBUFFER`. -/
def BufMgr.flushFileAux (file : Nat) : Nat → Nat → BufMgr → Disk → Status × BufMgr × Disk
  | _, 0, m, d => (Status.OK, m, d)
  | i, rem + 1, m, d =>
    let fs := frameAt m i
    if fs.valid = true ∧ fs.file = some file then
      if 0 < fs.pinCnt then (Status.PAGEPINNED, m, d)
      else
        let wres : Status × Disk :=
          if fs.dirty = true then d.writePage file fs.pageNo (poolAt m i)
          else (Status.OK, d)
        if wres.1 ≠ Status.OK then (wres.1, m, wres.2)
        else
          let m2 := { m with hashTable := (htRemove m.hashTable file fs.pageNo).2 }
          let m3 := setFrame m2 i
            { fs with dirty := false, file := none, pageNo := -1, valid := false }
          BufMgr.flushFileAux file (i + 1) rem m3 wres.2
    else if fs.valid = false ∧ fs.file = some file then
      (Status.BADBUFFER, m, d)
    else
      BufMgr.flushFileAux file (i + 1) rem m d

/-- `BufMgr::flushFile(file)`: sweep all `numBufs` frames from index 0. -/
def BufMgr.flushFile (m : BufMgr) (d : Disk) (file : Nat) : Status × BufMgr × Disk :=
  BufMgr.flushFileAux file 0 m.numBufs m d

/-! ### Concrete test fixtures -/

/-- A failure-free disk whose page (f, p) initially holds content
`1000 + 10 * f + p.toNat`. -/
def testDisk : Disk :=
  { data := fun f p => 1000 + 10 * f + p.toNat
    log := []
    readFails := fun _ _ => false
    writeFails := fun _ _ => false
    allocFails := fun _ => false
    disposeFails := fun _ _ => false
    nextPage := fun _ => 1 }

/-- Fetch page 1 of file 0 into a fresh two-frame pool (left pinned). -/
def fetchA : Status × Option Nat × BufMgr × Disk :=
  (BufMgr.init 2).readPage testDisk 0 1

/-- Then fetch page 2 of file 0 (both frames now resident and pinned). -/
def fetchB : Status × Option Nat × BufMgr × Disk :=
  fetchA.2.2.1.readPage fetchA.2.2.2 0 2

/-- Then fetch a third distinct page while both frames stay pinned. -/
def fetchC : Status × Option Nat × BufMgr × Disk :=
  fetchB.2.2.1.readPage fetchB.2.2.2 0 3

/-- A disk whose writes always fail. -/
def failWriteDisk : Disk := { testDisk with writeFails := fun _ _ => true }

/-- A disk whose reads always fail. -/
def failReadDisk : Disk := { testDisk with readFails := fun _ _ => true }

/-- A one-frame pool holding a dirty, unpinned, unreferenced page
(file 0, page 1) whose buffer content is 42. -/
def dirtyOneState : BufMgr :=
  { numBufs := 1
    bufTable := [{ frameNo := 0, file := some 0, pageNo := 1, pinCnt := 0,
                   dirty := true, refbit := false, valid := true }]
    bufPool := [42]
    hashTable := [((0, 1), 0)]
    clockHand := 0 }

/-- Round trip, step 1: fetch page 1 of file 5 into a one-frame pool. -/
def rt1 : Status × Option Nat × BufMgr × Disk := (BufMgr.init 1).readPage testDisk 5 1

/-- Round trip, step 2: overwrite the fetched buffer with content 777
through the returned page pointer. -/
def rtW : BufMgr := setPool rt1.2.2.1 0 777

/-- Round trip, step 3: unpin page 1, marking it dirty. -/
def rt2 : Status × BufMgr := rtW.unPinPage 5 1 true

/-- Round trip, step 4: fetch page 2, which evicts dirty page 1 and must
write it back. -/
def rt3 : Status × Option Nat × BufMgr × Disk := rt2.2.readPage rt1.2.2.2 5 2

/-- Round trip, step 5: unpin page 2. -/
def rt4 : Status × BufMgr := rt3.2.2.1.unPinPage 5 2 false

/-- Round trip, step 6: fetch page 1 again; its frame must hold the
written content. -/
def rt5 : Status × Option Nat × BufMgr × Disk := rt4.2.readPage rt3.2.2.2 5 1

/-! ### Derived state predicates -/

/-- Pointwise equality of all frame-descriptor fields except the reference
bit. -/
def framesCoreEq (m m' : BufMgr) : Prop :=
  ∀ i, (frameAt m' i).valid = (frameAt m i).valid ∧
       (frameAt m' i).pinCnt = (frameAt m i).pinCnt ∧
       (frameAt m' i).dirty = (frameAt m i).dirty ∧
       (frameAt m' i).file = (frameAt m i).file ∧
       (frameAt m' i).pageNo = (frameAt m i).pageNo ∧
       (frameAt m' i).frameNo = (frameAt m i).frameNo

/-- Core equality of two manager states: everything except reference bits
and the clock hand. -/
def sameCore (m m' : BufMgr) : Prop :=
  m'.numBufs = m.numBufs ∧
  m'.bufTable.length = m.bufTable.length ∧
  m'.bufPool = m.bufPool ∧
  m'.hashTable = m.hashTable ∧
  framesCoreEq m m'

/-- Structural well-formedness: table and pool have exactly `numBufs`
entries and the clock hand is in range. -/
def WF (m : BufMgr) : Prop :=
  m.bufTable.length = m.numBufs ∧ m.bufPool.length = m.numBufs ∧
  m.clockHand < m.numBufs

/-- Pin counts are never negative. -/
def pinsNonneg (m : BufMgr) : Prop := ∀ i, 0 ≤ (frameAt m i).pinCnt

/-- The claimed invariant on invalid frames: `valid == false` implies
`pinCount == 0`, `dirty == false` and the owner is unset. -/
def invalidClean (m : BufMgr) : Prop :=
  ∀ i, (frameAt m i).valid = false →
    (frameAt m i).pinCnt = 0 ∧ (frameAt m i).dirty = false ∧ (frameAt m i).file = none

/-- Every valid frame has an owning file (the `File*` is non-null). -/
def validOwned (m : BufMgr) : Prop :=
  ∀ i, (frameAt m i).valid = true → (frameAt m i).file ≠ none

/-- The claimed invariant on the Page Index: at most one frame is mapped
to any (file, pageNumber) key. -/
def hashKeysUnique (m : BufMgr) : Prop := (m.hashTable.map Prod.fst).Nodup

/-- Residency consistency: every Page Index entry points to an in-range,
valid frame whose owner and page number match the entry's key. -/
def hashConsistent (m : BufMgr) : Prop :=
  ∀ e ∈ m.hashTable,
    e.2 < m.numBufs ∧ (frameAt m e.2).valid = true ∧
    (frameAt m e.2).file = some e.1.1 ∧ (frameAt m e.2).pageNo = e.1.2

/-- The state invariant exactly as claimed by the spec (§3). -/
def ClaimedInv (m : BufMgr) : Prop := invalidClean m ∧ hashKeysUnique m

/-- The full invariant carried through all operations: the claimed
invariant together with the auxiliary facts needed to re-establish it
(structural well-formedness, non-negative pins, owned valid frames,
residency consistency). -/
def FullInv (m : BufMgr) : Prop :=
  WF m ∧ pinsNonneg m ∧ validOwned m ∧ hashConsistent m ∧ ClaimedInv m

/-- Postcondition of a successful sweep starting from state `m`, disk `d`,
selecting frame `fr` and ending in `m'`, `d'`: the victim was invalid or
unpinned at entry, is unused afterwards, other frames keep their core
fields, and a valid victim's index entry is removed with exactly one
write-back when it was dirty. -/
def OkPost (m : BufMgr) (d : Disk) (fr : Nat) (m' : BufMgr) (d' : Disk) : Prop :=
  m'.numBufs = m.numBufs ∧
  m'.bufTable.length = m.bufTable.length ∧
  m'.bufPool = m.bufPool ∧
  (frameAt m' fr).valid = false ∧
  (((frameAt m fr).valid = false ∧ m'.hashTable = m.hashTable ∧ d' = d ∧
      framesCoreEq m m') ∨
   ((frameAt m fr).valid = true ∧ (frameAt m fr).pinCnt ≤ 0 ∧
      fr < m.bufTable.length ∧
      (frameAt m' fr).pinCnt = 0 ∧ (frameAt m' fr).dirty = false ∧
      (frameAt m' fr).file = none ∧
      (∀ i, i ≠ fr →
        (frameAt m' i).valid = (frameAt m i).valid ∧
        (frameAt m' i).pinCnt = (frameAt m i).pinCnt ∧
        (frameAt m' i).dirty = (frameAt m i).dirty ∧
        (frameAt m' i).file = (frameAt m i).file ∧
        (frameAt m' i).pageNo = (frameAt m i).pageNo) ∧
      ∃ F, (frameAt m fr).file = some F ∧
        m'.hashTable = (htRemove m.hashTable F (frameAt m fr).pageNo).2 ∧
        ((frameAt m fr).dirty = true →
          d'.log = d.log ++ [(F, (frameAt m fr).pageNo, poolAt m fr)] ∧
          d'.data = fun A B =>
            if A = F ∧ B = (frameAt m fr).pageNo then poolAt m fr else d.data A B) ∧
        ((frameAt m fr).dirty = false → d' = d)))

/-! ### Basic facts about frame access and update -/

theorem frameAt_default (m : BufMgr) (i : Nat) (h : m.bufTable.length ≤ i) :
    frameAt m i = default := List.getD_eq_default _ _ h

theorem frameAt_valid_lt {m : BufMgr} {i : Nat} (h : (frameAt m i).valid = true) :
    i < m.bufTable.length := by
  by_contra hc
  rw [frameAt_default m i (le_of_not_lt hc)] at h
  exact absurd h (by decide)

@[simp] theorem setFrame_numBufs (m : BufMgr) (i : Nat) (b : BufDesc) :
    (setFrame m i b).numBufs = m.numBufs := rfl

@[simp] theorem setFrame_hashTable (m : BufMgr) (i : Nat) (b : BufDesc) :
    (setFrame m i b).hashTable = m.hashTable := rfl

@[simp] theorem setFrame_bufPool (m : BufMgr) (i : Nat) (b : BufDesc) :
    (setFrame m i b).bufPool = m.bufPool := rfl

@[simp] theorem setFrame_clockHand (m : BufMgr) (i : Nat) (b : BufDesc) :
    (setFrame m i b).clockHand = m.clockHand := rfl

@[simp] theorem setFrame_length (m : BufMgr) (i : Nat) (b : BufDesc) :
    (setFrame m i b).bufTable.length = m.bufTable.length := List.length_set ..

@[simp] theorem advanceClock_numBufs (m : BufMgr) : m.advanceClock.numBufs = m.numBufs := rfl

@[simp] theorem advanceClock_hashTable (m : BufMgr) :
    m.advanceClock.hashTable = m.hashTable := rfl

@[simp] theorem advanceClock_bufPool (m : BufMgr) : m.advanceClock.bufPool = m.bufPool := rfl

@[simp] theorem advanceClock_bufTable (m : BufMgr) :
    m.advanceClock.bufTable = m.bufTable := rfl

@[simp] theorem frameAt_advanceClock (m : BufMgr) (i : Nat) :
    frameAt m.advanceClock i = frameAt m i := rfl

@[simp] theorem poolAt_advanceClock (m : BufMgr) (i : Nat) :
    poolAt m.advanceClock i = poolAt m i := rfl

@[simp] theorem poolAt_setFrame (m : BufMgr) (i j : Nat) (b : BufDesc) :
    poolAt (setFrame m i b) j = poolAt m j := rfl

@[simp] theorem frameAt_setPool (m : BufMgr) (i j : Nat) (c : Page) :
    frameAt (setPool m i c) j = frameAt m j := rfl

@[simp] theorem setPool_hashTable (m : BufMgr) (i : Nat) (c : Page) :
    (setPool m i c).hashTable = m.hashTable := rfl

@[simp] theorem setPool_numBufs (m : BufMgr) (i : Nat) (c : Page) :
    (setPool m i c).numBufs = m.numBufs := rfl

@[simp] theorem setPool_clockHand (m : BufMgr) (i : Nat) (c : Page) :
    (setPool m i c).clockHand = m.clockHand := rfl

@[simp] theorem setPool_bufTable (m : BufMgr) (i : Nat) (c : Page) :
    (setPool m i c).bufTable = m.bufTable := rfl

@[simp] theorem setPool_length (m : BufMgr) (i : Nat) (c : Page) :
    (setPool m i c).bufPool.length = m.bufPool.length := List.length_set ..

theorem frameAt_setFrame_self {m : BufMgr} {i : Nat} (b : BufDesc)
    (h : i < m.bufTable.length) : frameAt (setFrame m i b) i = b := by
  simp [frameAt, setFrame, List.getD_eq_getElem?_getD, List.getElem?_set_self', h,
    List.getElem?_eq_getElem]

theorem frameAt_setFrame_ne {i j : Nat} (m : BufMgr) (b : BufDesc) (h : j ≠ i) :
    frameAt (setFrame m i b) j = frameAt m j := by
  simp [frameAt, setFrame, List.getD_eq_getElem?_getD, List.getElem?_set_ne (Ne.symm h)]

theorem frameAt_mem {m : BufMgr} {i : Nat} (h : i < m.bufTable.length) :
    frameAt m i ∈ m.bufTable := by
  rw [frameAt, List.getD_eq_getElem m.bufTable default h]
  exact m.bufTable.getElem_mem h

/-! ### Facts about the Page Index operations -/

theorem htLookup_mem {ht : HashTbl} {f : Nat} {p : Int} {fr : Nat}
    (h : htLookup ht f p = some fr) : ((f, p), fr) ∈ ht := by
  induction ht with
  | nil => simp [htLookup] at h
  | cons e rest ih =>
    obtain ⟨k, v⟩ := e
    rw [htLookup] at h
    by_cases he : k = (f, p)
    · subst he
      simp at h
      rw [h]
      exact List.mem_cons_self _ _
    · simp only [if_neg he] at h
      exact List.mem_cons_of_mem _ (ih h)

theorem htLookup_eq_none {ht : HashTbl} {f : Nat} {p : Int} :
    htLookup ht f p = none ↔ (f, p) ∉ ht.map Prod.fst := by
  induction ht with
  | nil => simp [htLookup]
  | cons e rest ih =>
    rw [htLookup]
    by_cases he : e.1 = (f, p)
    · simp [he]
    · simp [he, ih, Ne.symm he]

theorem htRemove_sublist (ht : HashTbl) (f : Nat) (p : Int) :
    (htRemove ht f p).2.Sublist ht := by
  induction ht with
  | nil => simp [htRemove]
  | cons e rest ih =>
    rw [htRemove]
    by_cases he : e.1 = (f, p)
    · simp only [he, if_pos rfl]
      exact List.sublist_cons_self _ _
    · have : e = (e.1, e.2) := rfl
      rw [this]
      simp only [if_neg he]
      exact List.Sublist.cons₂ _ ih

theorem htRemove_of_none {ht : HashTbl} {f : Nat} {p : Int}
    (h : htLookup ht f p = none) : (htRemove ht f p).2 = ht := by
  induction ht with
  | nil => simp [htRemove]
  | cons e rest ih =>
    rw [htLookup] at h
    by_cases he : e.1 = (f, p)
    · simp [he] at h
    · simp [he] at h
      have : e = (e.1, e.2) := rfl
      rw [htRemove, this]
      simp [he, ih h]

theorem htLookup_htRemove_none {ht : HashTbl} {F f : Nat} {P p : Int}
    (h : htLookup ht F P = none) : htLookup (htRemove ht f p).2 F P = none := by
  rw [htLookup_eq_none] at h ⊢
  intro hc
  exact h (List.Sublist.mem hc ((htRemove_sublist ht f p).map Prod.fst))

theorem not_mem_htRemove_self {ht : HashTbl} {f : Nat} {p : Int}
    (hnd : (ht.map Prod.fst).Nodup) (v : Nat) : ((f, p), v) ∉ (htRemove ht f p).2 := by
  induction ht with
  | nil => simp [htRemove]
  | cons e rest ih =>
    rw [htRemove]
    by_cases he : e.1 = (f, p)
    · simp only [he, if_pos rfl]
      intro hc
      have : (f, p) ∈ rest.map Prod.fst := by
        exact List.mem_map_of_mem Prod.fst hc
      rw [List.map_cons, List.nodup_cons, he] at hnd
      exact hnd.1 this
    · have : e = (e.1, e.2) := rfl
      rw [this]
      simp only [if_neg he]
      intro hc
      rcases List.mem_cons.mp hc with hc | hc
      · exact he (congrArg Prod.fst hc.symm)
      · rw [List.map_cons, List.nodup_cons] at hnd
        exact ih hnd.2 hc

theorem htInsert_of_none {ht : HashTbl} {f : Nat} {p : Int} (fr : Nat)
    (h : htLookup ht f p = none) : htInsert ht f p fr = (Status.OK, ((f, p), fr) :: ht) := by
  simp [htInsert, h]

theorem framesCoreEq_refl (m : BufMgr) : framesCoreEq m m :=
  fun _ => ⟨rfl, rfl, rfl, rfl, rfl, rfl⟩

theorem framesCoreEq_trans {a b c : BufMgr} (h1 : framesCoreEq a b)
    (h2 : framesCoreEq b c) : framesCoreEq a c := by
  intro i
  obtain ⟨a1, a2, a3, a4, a5, a6⟩ := h1 i
  obtain ⟨b1, b2, b3, b4, b5, b6⟩ := h2 i
  exact ⟨b1.trans a1, b2.trans a2, b3.trans a3, b4.trans a4, b5.trans a5, b6.trans a6⟩

theorem sameCore_refl (m : BufMgr) : sameCore m m :=
  ⟨rfl, rfl, rfl, rfl, framesCoreEq_refl m⟩

theorem sameCore_trans {a b c : BufMgr} (h1 : sameCore a b) (h2 : sameCore b c) :
    sameCore a c := by
  obtain ⟨n1, l1, p1, h1', f1⟩ := h1
  obtain ⟨n2, l2, p2, h2', f2⟩ := h2
  exact ⟨n2.trans n1, l2.trans l1, p2.trans p1, h2'.trans h1', framesCoreEq_trans f1 f2⟩

theorem sameCore_advance (m : BufMgr) : sameCore m m.advanceClock :=
  ⟨rfl, rfl, rfl, rfl, framesCoreEq_refl _⟩

theorem sameCore_clearRef (m : BufMgr) (h : m.clockHand < m.bufTable.length) :
    sameCore m
      ((setFrame m m.clockHand { frameAt m m.clockHand with refbit := false }).advanceClock) := by
  refine ⟨rfl, by simp, rfl, rfl, fun i => ?_⟩
  by_cases hi : i = m.clockHand
  · subst hi
    rw [frameAt_advanceClock, frameAt_setFrame_self _ h]
    exact ⟨rfl, rfl, rfl, rfl, rfl, rfl⟩
  · rw [frameAt_advanceClock, frameAt_setFrame_ne _ _ hi]
    exact ⟨rfl, rfl, rfl, rfl, rfl, rfl⟩

/-- Whatever `allocBuf`'s sweep does to the disk, the failure-injection
oracles and the allocation counters are untouched (only `data` and `log`
can change, through `writePage`). -/
theorem allocBufAux_disk_oracles {fuel : Nat} {m : BufMgr} {d : Disk} {st : Status}
    {fr : Nat} {m' : BufMgr} {d' : Disk}
    (h : BufMgr.allocBufAux fuel m d = (st, fr, m', d')) :
    d'.readFails = d.readFails ∧ d'.writeFails = d.writeFails ∧
    d'.allocFails = d.allocFails ∧ d'.disposeFails = d.disposeFails ∧
    d'.nextPage = d.nextPage := by
  induction fuel generalizing m d with
  | zero =>
    rw [BufMgr.allocBufAux] at h
    simp only [Prod.mk.injEq] at h
    obtain ⟨-, -, -, h4⟩ := h
    subst h4
    exact ⟨rfl, rfl, rfl, rfl, rfl⟩
  | succ fuel ih =>
    rw [BufMgr.allocBufAux] at h
    by_cases hv : (frameAt m m.clockHand).valid = false
    · rw [if_pos hv] at h
      simp only [Prod.mk.injEq] at h
      obtain ⟨-, -, -, h4⟩ := h
      subst h4
      exact ⟨rfl, rfl, rfl, rfl, rfl⟩
    · rw [if_neg hv] at h
      by_cases hr : (frameAt m m.clockHand).refbit = true
      · rw [if_pos hr] at h
        exact ih h
      · rw [if_neg hr] at h
        by_cases hp : 0 < (frameAt m m.clockHand).pinCnt
        · rw [if_pos hp] at h
          exact ih h
        · rw [if_neg hp] at h
          split at h
          · simp only [Prod.mk.injEq] at h
            obtain ⟨-, -, -, h4⟩ := h
            subst h4
            exact ⟨rfl, rfl, rfl, rfl, rfl⟩
          · next f heq =>
            by_cases hd : (frameAt m m.clockHand).dirty = true
            · rw [if_pos hd] at h
              by_cases hw :
                  (d.writePage f (frameAt m m.clockHand).pageNo (poolAt m m.clockHand)).1
                    ≠ Status.OK
              · rw [if_pos hw] at h
                simp only [Prod.mk.injEq] at h
                obtain ⟨-, -, -, h4⟩ := h
                subst h4
                simp only [Disk.writePage]
                split <;> exact ⟨rfl, rfl, rfl, rfl, rfl⟩
              · rw [if_neg hw] at h
                simp only [Prod.mk.injEq] at h
                obtain ⟨-, -, -, h4⟩ := h
                subst h4
                simp only [Disk.writePage]
                split <;> exact ⟨rfl, rfl, rfl, rfl, rfl⟩
            · rw [if_neg hd] at h
              simp only [ne_eq, not_true_eq_false, if_false, ite_not] at h
              simp only [Prod.mk.injEq] at h
              obtain ⟨-, -, -, h4⟩ := h
              subst h4
              exact ⟨rfl, rfl, rfl, rfl, rfl⟩

/-! ### State invariants -/

theorem validOwned_of_sameCore {m m' : BufMgr} (hs : sameCore m m')
    (h : validOwned m) : validOwned m' := by
  intro i hv
  obtain ⟨v, _, _, f, _, _⟩ := hs.2.2.2.2 i
  rw [v] at hv
  rw [f]
  exact h i hv

/-- When the sweep aborts with a write-back failure, the manager state is
core-unchanged (only reference bits and the hand moved), the hand rests on
a valid, dirty, unpinned victim, and the disk contents are unchanged. -/
theorem allocBufAux_unixerr {fuel : Nat} {m : BufMgr} {d : Disk} {fr : Nat}
    {m' : BufMgr} {d' : Disk} (hown : validOwned m)
    (h : BufMgr.allocBufAux fuel m d = (Status.UNIXERR, fr, m', d')) :
    sameCore m m' ∧
    (frameAt m' m'.clockHand).valid = true ∧
    (frameAt m' m'.clockHand).dirty = true ∧
    (frameAt m' m'.clockHand).pinCnt ≤ 0 ∧
    d'.data = d.data := by
  induction fuel generalizing m with
  | zero =>
    rw [BufMgr.allocBufAux] at h
    simp at h
  | succ fuel ih =>
    rw [BufMgr.allocBufAux] at h
    by_cases hv : (frameAt m m.clockHand).valid = false
    · rw [if_pos hv] at h
      simp at h
    · rw [if_neg hv] at h
      have hvt : (frameAt m m.clockHand).valid = true := by
        simpa using hv
      have hlt : m.clockHand < m.bufTable.length := frameAt_valid_lt hvt
      by_cases hr : (frameAt m m.clockHand).refbit = true
      · rw [if_pos hr] at h
        have hsc := sameCore_clearRef m hlt
        obtain ⟨hs, rest⟩ := ih (validOwned_of_sameCore hsc hown) h
        exact ⟨sameCore_trans hsc hs, rest⟩
      · rw [if_neg hr] at h
        by_cases hp : 0 < (frameAt m m.clockHand).pinCnt
        · rw [if_pos hp] at h
          obtain ⟨hs, rest⟩ := ih (validOwned_of_sameCore (sameCore_advance m) hown) h
          exact ⟨sameCore_trans (sameCore_advance m) hs, rest⟩
        · rw [if_neg hp] at h
          split at h
          · next heq => exact absurd heq (hown m.clockHand hvt)
          · next f heq =>
            by_cases hd : (frameAt m m.clockHand).dirty = true
            · rw [if_pos hd] at h
              by_cases hw :
                  (d.writePage f (frameAt m m.clockHand).pageNo (poolAt m m.clockHand)).1
                    ≠ Status.OK
              · rw [if_pos hw] at h
                have hwf : d.writeFails f (frameAt m m.clockHand).pageNo = true := by
                  by_contra hc
                  apply hw
                  simp [Disk.writePage, hc]
                simp only [Prod.mk.injEq] at h
                obtain ⟨-, -, h3, h4⟩ := h
                subst h3
                subst h4
                refine ⟨sameCore_refl m, hvt, hd, le_of_not_lt hp, ?_⟩
                simp [Disk.writePage, hwf]
              · rw [if_neg hw] at h
                simp at h
            · rw [if_neg hd] at h
              simp at h

theorem okPost_mono {m m1 m' : BufMgr} {d d' : Disk} {fr : Nat}
    (hsc : sameCore m m1) (post : OkPost m1 d fr m' d') : OkPost m d fr m' d' := by
  obtain ⟨hn, hl, hp, hh, hfr⟩ := hsc
  obtain ⟨p1, p2, p3, p4, p5⟩ := post
  obtain ⟨fv, fp, fd, ff, fpn, _⟩ := hfr fr
  refine ⟨p1.trans hn, p2.trans hl, p3.trans hp, p4, ?_⟩
  rcases p5 with ⟨q1, q2, q3, q4⟩ | ⟨q1, q2, q3, q4, q5, q6, q7, F, r1, r2, r3, r4⟩
  · exact Or.inl ⟨fv ▸ q1, q2.trans hh, q3, framesCoreEq_trans hfr q4⟩
  · refine Or.inr ⟨fv ▸ q1, fp ▸ q2, hl ▸ q3, q4, q5, q6, ?_, F, ff ▸ r1, ?_, ?_, ?_⟩
    · intro i hi
      obtain ⟨a1, a2, a3, a4, a5, _⟩ := hfr i
      obtain ⟨b1, b2, b3, b4, b5⟩ := q7 i hi
      exact ⟨b1.trans a1, b2.trans a2, b3.trans a3, b4.trans a4, b5.trans a5⟩
    · rw [← fpn, ← hh]
      exact r2
    · intro hd
      have hpool : poolAt m1 fr = poolAt m fr := by
        simp [poolAt, hp]
      rw [← fpn, ← hpool]
      exact r3 (fd ▸ hd)
    · intro hd
      exact r4 (fd ▸ hd)

/-- Full characterization of a successful sweep. -/
theorem allocBufAux_ok {fuel : Nat} {m : BufMgr} {d : Disk} {fr : Nat}
    {m' : BufMgr} {d' : Disk}
    (h : BufMgr.allocBufAux fuel m d = (Status.OK, fr, m', d')) :
    OkPost m d fr m' d' := by
  induction fuel generalizing m with
  | zero =>
    rw [BufMgr.allocBufAux] at h
    simp at h
  | succ fuel ih =>
    rw [BufMgr.allocBufAux] at h
    by_cases hv : (frameAt m m.clockHand).valid = false
    · rw [if_pos hv] at h
      simp only [Prod.mk.injEq] at h
      obtain ⟨-, h2, h3, h4⟩ := h
      subst h2
      subst h3
      subst h4
      exact ⟨rfl, rfl, rfl, hv, Or.inl ⟨hv, rfl, rfl, framesCoreEq_refl _⟩⟩
    · rw [if_neg hv] at h
      have hvt : (frameAt m m.clockHand).valid = true := by simpa using hv
      have hlt : m.clockHand < m.bufTable.length := frameAt_valid_lt hvt
      by_cases hr : (frameAt m m.clockHand).refbit = true
      · rw [if_pos hr] at h
        exact okPost_mono (sameCore_clearRef m hlt) (ih h)
      · rw [if_neg hr] at h
        by_cases hp : 0 < (frameAt m m.clockHand).pinCnt
        · rw [if_pos hp] at h
          exact okPost_mono (sameCore_advance m) (ih h)
        · rw [if_neg hp] at h
          split at h
          · simp at h
          · next f heq =>
            by_cases hd : (frameAt m m.clockHand).dirty = true
            · rw [if_pos hd] at h
              by_cases hw :
                  (d.writePage f (frameAt m m.clockHand).pageNo (poolAt m m.clockHand)).1
                    ≠ Status.OK
              · rw [if_pos hw] at h
                simp at h
              · rw [if_neg hw] at h
                have hwf : d.writeFails f (frameAt m m.clockHand).pageNo = false := by
                  by_contra hc
                  apply hw
                  simp only [Bool.not_eq_false] at hc
                  simp [Disk.writePage, hc]
                simp only [Prod.mk.injEq] at h
                obtain ⟨-, h2, h3, h4⟩ := h
                subst h2
                subst h3
                subst h4
                have hself :
                    frameAt ((setFrame
                      { numBufs := m.numBufs, bufTable := m.bufTable, bufPool := m.bufPool,
                        hashTable := (htRemove m.hashTable f (frameAt m m.clockHand).pageNo).2,
                        clockHand := m.clockHand }
                      m.clockHand (frameAt m m.clockHand).Clear).advanceClock) m.clockHand
                      = (frameAt m m.clockHand).Clear := by
                  rw [frameAt_advanceClock]
                  exact frameAt_setFrame_self _ hlt
                refine ⟨rfl, by simp, rfl, ?_, Or.inr ⟨hvt, le_of_not_lt hp, hlt, ?_, ?_, ?_, ?_, f, heq, rfl, ?_, ?_⟩⟩
                · rw [hself]; rfl
                · rw [hself]; rfl
                · rw [hself]; rfl
                · rw [hself]; rfl
                · intro i hi
                  rw [frameAt_advanceClock, frameAt_setFrame_ne _ _ hi]
                  exact ⟨rfl, rfl, rfl, rfl, rfl⟩
                · intro _
                  constructor
                  · simp [Disk.writePage, hwf]
                  · simp [Disk.writePage, hwf]
                · intro hdf
                  rw [hd] at hdf
                  exact absurd hdf (by decide)
            · rw [if_neg hd] at h
              simp only [ne_eq, not_true_eq_false, if_false, ite_not] at h
              simp only [Prod.mk.injEq] at h
              obtain ⟨-, h2, h3, h4⟩ := h
              subst h2
              subst h3
              subst h4
              have hself :
                  frameAt ((setFrame
                    { numBufs := m.numBufs, bufTable := m.bufTable, bufPool := m.bufPool,
                      hashTable := (htRemove m.hashTable f (frameAt m m.clockHand).pageNo).2,
                      clockHand := m.clockHand }
                    m.clockHand (frameAt m m.clockHand).Clear).advanceClock) m.clockHand
                    = (frameAt m m.clockHand).Clear := by
                rw [frameAt_advanceClock]
                exact frameAt_setFrame_self _ hlt
              refine ⟨rfl, by simp, rfl, ?_, Or.inr ⟨hvt, le_of_not_lt hp, hlt, ?_, ?_, ?_, ?_, f, heq, rfl, ?_, ?_⟩⟩
              · rw [hself]; rfl
              · rw [hself]; rfl
              · rw [hself]; rfl
              · rw [hself]; rfl
              · intro i hi
                rw [frameAt_advanceClock, frameAt_setFrame_ne _ _ hi]
                exact ⟨rfl, rfl, rfl, rfl, rfl⟩
              · intro hdt
                simp only [Bool.not_eq_true] at hd
                rw [hd] at hdt
                exact absurd hdt (by decide)
              · intro _
                rfl

theorem fullInv_advanceClock {m : BufMgr} (h : FullInv m) : FullInv m.advanceClock := by
  obtain ⟨⟨l1, l2, l3⟩, hp, ho, hc, hi⟩ := h
  have pos : 0 < m.numBufs := lt_of_le_of_lt (Nat.zero_le _) l3
  exact ⟨⟨l1, l2, Nat.mod_lt _ pos⟩, hp, ho, hc, hi⟩

theorem fullInv_setFrame {m : BufMgr} {i : Nat} {b : BufDesc} (h : FullInv m)
    (hi : i < m.bufTable.length)
    (hpin : 0 ≤ b.pinCnt)
    (hclean : b.valid = false → b.pinCnt = 0 ∧ b.dirty = false ∧ b.file = none)
    (howned : b.valid = true → b.file ≠ none)
    (hcons : ∀ e ∈ m.hashTable, e.2 = i →
      b.valid = true ∧ b.file = some e.1.1 ∧ b.pageNo = e.1.2) :
    FullInv (setFrame m i b) := by
  obtain ⟨⟨l1, l2, l3⟩, hp, ho, hc, hic, hku⟩ := h
  refine ⟨⟨by simp [l1], l2, l3⟩, ?_, ?_, ?_, ?_, hku⟩
  · intro j
    by_cases hij : j = i
    · subst hij
      rw [frameAt_setFrame_self _ hi]
      exact hpin
    · rw [frameAt_setFrame_ne _ _ hij]
      exact hp j
  · intro j hv
    by_cases hij : j = i
    · subst hij
      rw [frameAt_setFrame_self _ hi] at hv ⊢
      exact howned hv
    · rw [frameAt_setFrame_ne _ _ hij] at hv ⊢
      exact ho j hv
  · intro e he
    obtain ⟨c1, c2, c3, c4⟩ := hc e he
    refine ⟨c1, ?_⟩
    by_cases hij : e.2 = i
    · rw [hij, frameAt_setFrame_self _ hi]
      exact hcons e he hij
    · rw [frameAt_setFrame_ne _ _ hij]
      exact ⟨c2, c3, c4⟩
  · intro j hv
    by_cases hij : j = i
    · subst hij
      rw [frameAt_setFrame_self _ hi] at hv ⊢
      exact hclean hv
    · rw [frameAt_setFrame_ne _ _ hij] at hv ⊢
      exact hic j hv

theorem fullInv_removeHash {m : BufMgr} (f : Nat) (p : Int) (h : FullInv m) :
    FullInv { m with hashTable := (htRemove m.hashTable f p).2 } := by
  obtain ⟨⟨l1, l2, l3⟩, hp, ho, hc, hic, hku⟩ := h
  refine ⟨⟨l1, l2, l3⟩, hp, ho, ?_, hic, ?_⟩
  · intro e he
    exact hc e ((htRemove_sublist m.hashTable f p).mem he)
  · exact hku.sublist ((htRemove_sublist m.hashTable f p).map Prod.fst)

/-- No Page Index entry can point at an invalid frame. -/
theorem no_hash_to_invalid {m : BufMgr} (h : FullInv m) {j : Nat}
    (hv : (frameAt m j).valid = false) : ∀ e ∈ m.hashTable, e.2 ≠ j := by
  intro e he hej
  have := (h.2.2.2.1 e he).2.1
  rw [hej, hv] at this
  exact absurd this (by decide)

/-- The clock sweep preserves the full invariant, whatever its outcome. -/
theorem allocBufAux_fullInv {fuel : Nat} {m : BufMgr} {d : Disk} {st : Status}
    {fr : Nat} {m' : BufMgr} {d' : Disk} (hinv : FullInv m)
    (h : BufMgr.allocBufAux fuel m d = (st, fr, m', d')) : FullInv m' := by
  induction fuel generalizing m d with
  | zero =>
    rw [BufMgr.allocBufAux] at h
    simp only [Prod.mk.injEq] at h
    obtain ⟨-, -, h3, -⟩ := h
    subst h3
    exact hinv
  | succ fuel ih =>
    rw [BufMgr.allocBufAux] at h
    by_cases hv : (frameAt m m.clockHand).valid = false
    · rw [if_pos hv] at h
      simp only [Prod.mk.injEq] at h
      obtain ⟨-, -, h3, -⟩ := h
      subst h3
      exact fullInv_advanceClock hinv
    · rw [if_neg hv] at h
      have hvt : (frameAt m m.clockHand).valid = true := by simpa using hv
      have hlt : m.clockHand < m.bufTable.length := frameAt_valid_lt hvt
      by_cases hr : (frameAt m m.clockHand).refbit = true
      · rw [if_pos hr] at h
        refine ih ?_ h
        refine fullInv_advanceClock (fullInv_setFrame hinv hlt ?_ ?_ ?_ ?_)
        · exact hinv.2.1 m.clockHand
        · intro hvf
          have hvf2 : (frameAt m m.clockHand).valid = false := hvf
          exact absurd hvf2 (by simp [hvt])
        · intro _
          exact hinv.2.2.1 m.clockHand hvt
        · intro e he hej
          obtain ⟨-, -, c3, c4⟩ := hinv.2.2.2.1 e he
          rw [hej] at c3 c4
          exact ⟨hvt, c3, c4⟩
      · rw [if_neg hr] at h
        by_cases hp : 0 < (frameAt m m.clockHand).pinCnt
        · rw [if_pos hp] at h
          exact ih (fullInv_advanceClock hinv) h
        · rw [if_neg hp] at h
          split at h
          · simp only [Prod.mk.injEq] at h
            obtain ⟨-, -, h3, -⟩ := h
            subst h3
            exact hinv
          · next f heq =>
            have hrem : ∀ e ∈ (htRemove m.hashTable f (frameAt m m.clockHand).pageNo).2,
                e.2 ≠ m.clockHand := by
              intro e he hej
              have hmem : e ∈ m.hashTable :=
                (htRemove_sublist m.hashTable f (frameAt m m.clockHand).pageNo).mem he
              obtain ⟨-, -, c3, c4⟩ := hinv.2.2.2.1 e hmem
              rw [hej, heq] at c3
              rw [hej] at c4
              have hk1 : e.1.1 = f := Option.some.inj c3.symm
              have hk2 : e.1.2 = (frameAt m m.clockHand).pageNo := c4.symm
              have hkey : e.1 = (f, (frameAt m m.clockHand).pageNo) := by
                obtain ⟨⟨a, b⟩, v⟩ := e
                simp only [Prod.mk.injEq]
                exact ⟨hk1, hk2⟩
              have : ((f, (frameAt m m.clockHand).pageNo), e.2) ∈
                  (htRemove m.hashTable f (frameAt m m.clockHand).pageNo).2 := by
                rw [← hkey]
                exact he
              exact not_mem_htRemove_self hinv.2.2.2.2.2 e.2 this
            have hm2 : FullInv (setFrame
                { m with hashTable := (htRemove m.hashTable f (frameAt m m.clockHand).pageNo).2 }
                m.clockHand (frameAt m m.clockHand).Clear) := by
              refine fullInv_setFrame
                (fullInv_removeHash f (frameAt m m.clockHand).pageNo hinv) hlt ?_ ?_ ?_ ?_
              · exact le_refl 0
              · intro _
                exact ⟨rfl, rfl, rfl⟩
              · intro hc
                exact absurd hc (by simp [BufDesc.Clear])
              · intro e he hej
                exact absurd hej (hrem e he)
            by_cases hd : (frameAt m m.clockHand).dirty = true
            · rw [if_pos hd] at h
              by_cases hw :
                  (d.writePage f (frameAt m m.clockHand).pageNo (poolAt m m.clockHand)).1
                    ≠ Status.OK
              · rw [if_pos hw] at h
                simp only [Prod.mk.injEq] at h
                obtain ⟨-, -, h3, -⟩ := h
                subst h3
                exact hinv
              · rw [if_neg hw] at h
                simp only [Prod.mk.injEq] at h
                obtain ⟨-, -, h3, -⟩ := h
                subst h3
                exact fullInv_advanceClock hm2
            · rw [if_neg hd] at h
              simp only [ne_eq, not_true_eq_false, if_false, ite_not] at h
              simp only [Prod.mk.injEq] at h
              obtain ⟨-, -, h3, -⟩ := h
              subst h3
              exact fullInv_advanceClock hm2

/-- When every frame is valid and pinned, the sweep can never select a
victim: it keeps clearing reference bits and skipping pinned frames until
its examination budget runs out. -/
theorem allocBufAux_all_pinned {fuel : Nat} {m : BufMgr} {d : Disk}
    (hlen : m.bufTable.length = m.numBufs) (hhand : m.clockHand < m.numBufs)
    (hall : ∀ i < m.numBufs, (frameAt m i).valid = true ∧ 0 < (frameAt m i).pinCnt) :
    (BufMgr.allocBufAux fuel m d).1 = Status.BUFFEREXCEEDED := by
  induction fuel generalizing m with
  | zero => rw [BufMgr.allocBufAux]
  | succ fuel ih =>
    have pos : 0 < m.numBufs := lt_of_le_of_lt (Nat.zero_le _) hhand
    obtain ⟨hvt, hpin⟩ := hall m.clockHand hhand
    rw [BufMgr.allocBufAux]
    rw [if_neg (by simp [hvt])]
    by_cases hr : (frameAt m m.clockHand).refbit = true
    · rw [if_pos hr]
      apply ih
      · simp [hlen]
      · exact Nat.mod_lt _ pos
      · intro i hi
        by_cases hic : i = m.clockHand
        · subst hic
          rw [frameAt_advanceClock,
            frameAt_setFrame_self _ (by rw [hlen]; exact hhand)]
          exact ⟨hvt, hpin⟩
        · rw [frameAt_advanceClock, frameAt_setFrame_ne _ _ hic]
          exact hall i hi
    · rw [if_neg hr, if_pos hpin]
      exact ih hlen (Nat.mod_lt _ pos) hall

/-- The frame selected by a successful sweep is always in range. -/
theorem allocBufAux_fr_lt {fuel : Nat} {m : BufMgr} {d : Disk} {fr : Nat}
    {m' : BufMgr} {d' : Disk}
    (hlen : m.bufTable.length = m.numBufs) (hhand : m.clockHand < m.numBufs)
    (h : BufMgr.allocBufAux fuel m d = (Status.OK, fr, m', d')) :
    fr < m.numBufs := by
  induction fuel generalizing m d with
  | zero =>
    rw [BufMgr.allocBufAux] at h
    simp at h
  | succ fuel ih =>
    have pos : 0 < m.numBufs := lt_of_le_of_lt (Nat.zero_le _) hhand
    rw [BufMgr.allocBufAux] at h
    by_cases hv : (frameAt m m.clockHand).valid = false
    · rw [if_pos hv] at h
      simp only [Prod.mk.injEq] at h
      obtain ⟨-, h2, -, -⟩ := h
      rw [← h2]
      exact hhand
    · rw [if_neg hv] at h
      by_cases hr : (frameAt m m.clockHand).refbit = true
      · rw [if_pos hr] at h
        exact ih
          (m := (setFrame m m.clockHand
            { frameAt m m.clockHand with refbit := false }).advanceClock)
          (by simp [hlen]) (Nat.mod_lt _ pos) h
      · rw [if_neg hr] at h
        by_cases hp : 0 < (frameAt m m.clockHand).pinCnt
        · rw [if_pos hp] at h
          exact ih (m := m.advanceClock) hlen (Nat.mod_lt _ pos) h
        · rw [if_neg hp] at h
          split at h
          · simp at h
          · next f heq =>
            by_cases hd : (frameAt m m.clockHand).dirty = true
            · rw [if_pos hd] at h
              by_cases hw :
                  (d.writePage f (frameAt m m.clockHand).pageNo (poolAt m m.clockHand)).1
                    ≠ Status.OK
              · rw [if_pos hw] at h
                simp at h
              · rw [if_neg hw] at h
                simp only [Prod.mk.injEq] at h
                obtain ⟨-, h2, -, -⟩ := h
                rw [← h2]
                exact hhand
            · rw [if_neg hd] at h
              simp only [ne_eq, not_true_eq_false, if_false, ite_not] at h
              simp only [Prod.mk.injEq] at h
              obtain ⟨-, h2, -, -⟩ := h
              rw [← h2]
              exact hhand

/-- After removing a key from a duplicate-free index, looking it up fails. -/
theorem htLookup_htRemove_self {ht : HashTbl} {f : Nat} {p : Int}
    (hnd : (ht.map Prod.fst).Nodup) : htLookup (htRemove ht f p).2 f p = none := by
  cases hlk : htLookup (htRemove ht f p).2 f p with
  | none => rfl
  | some v =>
    exact absurd (htLookup_mem hlk) (not_mem_htRemove_self hnd v)

theorem fullInv_setPool {m : BufMgr} (i : Nat) (c : Page) (h : FullInv m) :
    FullInv (setPool m i c) := by
  obtain ⟨⟨l1, l2, l3⟩, hp, ho, hc, hic, hku⟩ := h
  exact ⟨⟨l1, by simp [l2], l3⟩, hp, ho, hc, hic, hku⟩

/-- Publishing a fresh index entry for a previously invalid frame and
initializing that frame preserves the full invariant. -/
theorem fullInv_insert_set {m : BufMgr} {f : Nat} {p : Int} {fr : Nat} {b : BufDesc}
    (h : FullInv m)
    (hfr : fr < m.bufTable.length)
    (hinval : (frameAt m fr).valid = false)
    (hlk : htLookup m.hashTable f p = none)
    (hbv : b.valid = true) (hbp : 0 ≤ b.pinCnt) (hbf : b.file = some f)
    (hbn : b.pageNo = p) :
    FullInv (setFrame { m with hashTable := ((f, p), fr) :: m.hashTable } fr b) := by
  obtain ⟨⟨l1, l2, l3⟩, hp, ho, hc, hic, hku⟩ := h
  have hself : frameAt (setFrame { m with hashTable := ((f, p), fr) :: m.hashTable } fr b) fr
      = b := frameAt_setFrame_self _ hfr
  have hne : ∀ j, j ≠ fr →
      frameAt (setFrame { m with hashTable := ((f, p), fr) :: m.hashTable } fr b) j
        = frameAt m j :=
    fun j hj => frameAt_setFrame_ne _ _ hj
  refine ⟨⟨by simp [l1], l2, l3⟩, ?_, ?_, ?_, ?_, ?_⟩
  · intro j
    by_cases hj : j = fr
    · rw [hj, hself]
      exact hbp
    · rw [hne j hj]
      exact hp j
  · intro j hv
    by_cases hj : j = fr
    · rw [hj, hself]
      simp [hbf]
    · rw [hne j hj] at hv ⊢
      exact ho j hv
  · intro e he
    have hhe : e ∈ ((f, p), fr) :: m.hashTable := he
    rcases List.mem_cons.mp hhe with he1 | he2
    · subst he1
      refine ⟨l1 ▸ hfr, ?_⟩
      simp only [hself]
      exact ⟨hbv, hbf, hbn⟩
    · obtain ⟨c1, c2, c3, c4⟩ := hc e he2
      have hnefr : e.2 ≠ fr := by
        intro hc2
        rw [hc2] at c2
        rw [hinval] at c2
        exact absurd c2 (by decide)
      refine ⟨c1, ?_⟩
      rw [hne e.2 hnefr]
      exact ⟨c2, c3, c4⟩
  · intro j hv
    by_cases hj : j = fr
    · rw [hj, hself] at hv
      rw [hbv] at hv
      exact absurd hv (by decide)
    · rw [hne j hj] at hv ⊢
      exact hic j hv
  · show ((((f, p), fr) :: m.hashTable).map Prod.fst).Nodup
    rw [List.map_cons, List.nodup_cons]
    exact ⟨htLookup_eq_none.mp hlk, hku⟩

/-- After removing the index entry of the page resident in frame `i`, no
surviving entry points at frame `i`. -/
theorem hrem_no_self {m : BufMgr} (h : FullInv m) {i F : Nat}
    (hfile : (frameAt m i).file = some F) :
    ∀ e ∈ (htRemove m.hashTable F (frameAt m i).pageNo).2, e.2 ≠ i := by
  intro e he hei
  have hmem : e ∈ m.hashTable :=
    (htRemove_sublist m.hashTable F (frameAt m i).pageNo).mem he
  obtain ⟨-, -, c3, c4⟩ := h.2.2.2.1 e hmem
  rw [hei, hfile] at c3
  rw [hei] at c4
  have hk1 : e.1.1 = F := Option.some.inj c3.symm
  have hk2 : e.1.2 = (frameAt m i).pageNo := c4.symm
  have hkey : e.1 = (F, (frameAt m i).pageNo) := by
    obtain ⟨⟨a, b⟩, v⟩ := e
    simp only [Prod.mk.injEq]
    exact ⟨hk1, hk2⟩
  have hin : ((F, (frameAt m i).pageNo), e.2) ∈
      (htRemove m.hashTable F (frameAt m i).pageNo).2 := by
    rw [← hkey]
    exact he
  exact not_mem_htRemove_self h.2.2.2.2.2 e.2 hin

theorem allocBuf_fullInv {m : BufMgr} {d : Disk} (h : FullInv m) :
    FullInv (m.allocBuf d).2.2.1 :=
  allocBufAux_fullInv h rfl

theorem readPage_fullInv {m : BufMgr} {d : Disk} {f : Nat} {p : Int}
    (h : FullInv m) : FullInv (m.readPage d f p).2.2.1 := by
  cases hl : htLookup m.hashTable f p with
  | some fr =>
    have hmem := htLookup_mem hl
    obtain ⟨c1, c2, c3, c4⟩ := h.2.2.2.1 _ hmem
    have c1' : fr < m.numBufs := c1
    have c2' : (frameAt m fr).valid = true := c2
    have c3' : (frameAt m fr).file = some f := c3
    have hfr : fr < m.bufTable.length := by rw [h.1.1]; exact c1'
    have heq : (m.readPage d f p).2.2.1 =
        setFrame m fr
          { frameAt m fr with refbit := true, pinCnt := (frameAt m fr).pinCnt + 1 } := by
      simp [BufMgr.readPage, hl]
    rw [heq]
    refine fullInv_setFrame h hfr ?_ ?_ ?_ ?_
    · show 0 ≤ (frameAt m fr).pinCnt + 1
      have := h.2.1 fr
      omega
    · intro hvf
      have hvf2 : (frameAt m fr).valid = false := hvf
      rw [c2'] at hvf2
      exact absurd hvf2 (by decide)
    · intro _
      show (frameAt m fr).file ≠ none
      rw [c3']
      simp
    · intro e he hei
      obtain ⟨-, e2, e3, e4⟩ := h.2.2.2.1 e he
      rw [hei] at e2 e3 e4
      exact ⟨e2, e3, e4⟩
  | none =>
    rcases ha : m.allocBuf d with ⟨st, fr, m1, d1⟩
    have hinv1 : FullInv m1 := by
      rw [BufMgr.allocBuf] at ha
      exact allocBufAux_fullInv h ha
    by_cases hst : st = Status.OK
    · subst hst
      rw [BufMgr.allocBuf] at ha
      have hop := allocBufAux_ok ha
      have hfr1 : fr < m1.bufTable.length := by
        rw [hop.2.1, h.1.1]
        exact allocBufAux_fr_lt h.1.1 h.1.2.2 ha
      have hval1 : (frameAt m1 fr).valid = false := hop.2.2.2.1
      have hlk1 : htLookup m1.hashTable f p = none := by
        rcases hop.2.2.2.2 with ⟨-, hh, -, -⟩ | ⟨-, -, -, -, -, -, -, F, -, hh, -, -⟩
        · rw [hh]
          exact hl
        · rw [hh]
          exact htLookup_htRemove_none hl
      by_cases hrd : d1.readFails f p = true
      · have heq : (m.readPage d f p).2.2.1 =
            setFrame m1 fr (frameAt m1 fr).Clear := by
          simp [BufMgr.readPage, hl, BufMgr.allocBuf, ha, Disk.readPage, hrd]
        rw [heq]
        refine fullInv_setFrame hinv1 hfr1 ?_ ?_ ?_ ?_
        · exact le_refl 0
        · intro _
          exact ⟨rfl, rfl, rfl⟩
        · intro hcv
          exact absurd hcv (by simp [BufDesc.Clear])
        · intro e he hei
          exact absurd hei (no_hash_to_invalid hinv1 hval1 e he)
      · have hrd' : d1.readFails f p = false := by simpa using hrd
        have hlk2 : htLookup (setPool m1 fr (d1.readPage f p).2).hashTable f p = none := hlk1
        have heq : (m.readPage d f p).2.2.1 =
            setFrame { setPool m1 fr (d1.readPage f p).2 with
                hashTable := ((f, p), fr) :: (setPool m1 fr (d1.readPage f p).2).hashTable }
              fr ((frameAt (setPool m1 fr (d1.readPage f p).2) fr).Set f p) := by
          simp [BufMgr.readPage, hl, BufMgr.allocBuf, ha, Disk.readPage, hrd',
            htInsert, hlk1, setPool, setFrame, frameAt]
        rw [heq]
        refine fullInv_insert_set (fullInv_setPool fr _ hinv1) hfr1 hval1 hlk2 ?_ ?_ ?_ ?_
        · rfl
        · show (0 : Int) ≤ 1
          decide
        · rfl
        · rfl
    · have heq : (m.readPage d f p).2.2.1 = m1 := by
        simp [BufMgr.readPage, hl, ha, hst]
      rw [heq]
      exact hinv1

theorem unPinPage_fullInv {m : BufMgr} {f : Nat} {p : Int} {md : Bool}
    (h : FullInv m) : FullInv (m.unPinPage f p md).2 := by
  cases hl : htLookup m.hashTable f p with
  | none =>
    have heq : (m.unPinPage f p md).2 = m := by
      simp [BufMgr.unPinPage, hl]
    rw [heq]
    exact h
  | some fr =>
    have hmem := htLookup_mem hl
    obtain ⟨c1, c2, c3, c4⟩ := h.2.2.2.1 _ hmem
    have c1' : fr < m.numBufs := c1
    have c2' : (frameAt m fr).valid = true := c2
    have c3' : (frameAt m fr).file = some f := c3
    have hfr : fr < m.bufTable.length := by rw [h.1.1]; exact c1'
    by_cases hp0 : (frameAt m fr).pinCnt = 0
    · have heq : (m.unPinPage f p md).2 = m := by
        simp [BufMgr.unPinPage, hl, hp0]
      rw [heq]
      exact h
    · have hnn := h.2.1 fr
      by_cases hmd : md = true
      · have heq : (m.unPinPage f p md).2 =
            setFrame m fr
              { frameAt m fr with pinCnt := (frameAt m fr).pinCnt - 1, dirty := true } := by
          simp [BufMgr.unPinPage, hl, hp0, hmd]
        rw [heq]
        refine fullInv_setFrame h hfr ?_ ?_ ?_ ?_
        · show 0 ≤ (frameAt m fr).pinCnt - 1
          omega
        · intro hvf
          have hvf2 : (frameAt m fr).valid = false := hvf
          rw [c2'] at hvf2
          exact absurd hvf2 (by decide)
        · intro _
          show (frameAt m fr).file ≠ none
          rw [c3']
          simp
        · intro e he hei
          obtain ⟨-, e2, e3, e4⟩ := h.2.2.2.1 e he
          rw [hei] at e2 e3 e4
          exact ⟨e2, e3, e4⟩
      · have heq : (m.unPinPage f p md).2 =
            setFrame m fr
              { frameAt m fr with pinCnt := (frameAt m fr).pinCnt - 1 } := by
          simp [BufMgr.unPinPage, hl, hp0, hmd]
        rw [heq]
        refine fullInv_setFrame h hfr ?_ ?_ ?_ ?_
        · show 0 ≤ (frameAt m fr).pinCnt - 1
          omega
        · intro hvf
          have hvf2 : (frameAt m fr).valid = false := hvf
          rw [c2'] at hvf2
          exact absurd hvf2 (by decide)
        · intro _
          show (frameAt m fr).file ≠ none
          rw [c3']
          simp
        · intro e he hei
          obtain ⟨-, e2, e3, e4⟩ := h.2.2.2.1 e he
          rw [hei] at e2 e3 e4
          exact ⟨e2, e3, e4⟩

theorem allocPage_fullInv {m : BufMgr} {d : Disk} {f : Nat} (h : FullInv m) :
    FullInv (m.allocPage d f).2.2.2.1 := by
  by_cases hal : d.allocFails f = true
  · have heq : (m.allocPage d f).2.2.2.1 = m := by
      simp [BufMgr.allocPage, Disk.allocatePage, hal]
    rw [heq]
    exact h
  · have hal' : d.allocFails f = false := by simpa using hal
    rcases ha : m.allocBuf
        { d with nextPage := fun F => if F = f then d.nextPage F + 1 else d.nextPage F }
        with ⟨st, fr, m1, d2⟩
    have hinv1 : FullInv m1 := by
      rw [BufMgr.allocBuf] at ha
      exact allocBufAux_fullInv h ha
    by_cases hst : st = Status.OK
    · subst hst
      rw [BufMgr.allocBuf] at ha
      have hop := allocBufAux_ok ha
      have hfr1 : fr < m1.bufTable.length := by
        rw [hop.2.1, h.1.1]
        exact allocBufAux_fr_lt h.1.1 h.1.2.2 ha
      have hval1 : (frameAt m1 fr).valid = false := hop.2.2.2.1
      cases hins : htLookup m1.hashTable f (d.nextPage f) with
      | some v =>
        have heq : (m.allocPage d f).2.2.2.1 = m1 := by
          simp [BufMgr.allocPage, Disk.allocatePage, hal', BufMgr.allocBuf, ha,
            htInsert, hins]
        rw [heq]
        exact hinv1
      | none =>
        have heq : (m.allocPage d f).2.2.2.1 =
            setFrame { m1 with hashTable := ((f, d.nextPage f), fr) :: m1.hashTable }
              fr { (frameAt m1 fr).Set f (d.nextPage f) with frameNo := fr } := by
          simp [BufMgr.allocPage, Disk.allocatePage, hal', BufMgr.allocBuf, ha,
            htInsert, hins, setFrame, frameAt, BufDesc.Set]
        rw [heq]
        refine fullInv_insert_set hinv1 hfr1 hval1 hins ?_ ?_ ?_ ?_
        · rfl
        · show (0 : Int) ≤ 1
          decide
        · rfl
        · rfl
    · have heq : (m.allocPage d f).2.2.2.1 = m1 := by
        simp [BufMgr.allocPage, Disk.allocatePage, hal', ha, hst]
      rw [heq]
      exact hinv1

theorem disposePage_fullInv {m : BufMgr} {d : Disk} {f : Nat} {p : Int}
    (h : FullInv m) : FullInv (m.disposePage d f p).2.1 := by
  cases hl : htLookup m.hashTable f p with
  | none =>
    have heq : (m.disposePage d f p).2.1 =
        { m with hashTable := (htRemove m.hashTable f p).2 } := by
      simp [BufMgr.disposePage, hl]
    rw [heq]
    exact fullInv_removeHash f p h
  | some fr =>
    have hmem := htLookup_mem hl
    obtain ⟨c1, c2, c3, c4⟩ := h.2.2.2.1 _ hmem
    have c1' : fr < m.numBufs := c1
    have c3' : (frameAt m fr).file = some f := c3
    have c4' : (frameAt m fr).pageNo = p := c4
    have hfr : fr < m.bufTable.length := by rw [h.1.1]; exact c1'
    have heq : (m.disposePage d f p).2.1 =
        setFrame { m with hashTable := (htRemove m.hashTable f p).2 } fr
          (frameAt m fr).Clear := by
      simp [BufMgr.disposePage, hl, setFrame, frameAt]
    rw [heq]
    refine fullInv_setFrame (fullInv_removeHash f p h) hfr ?_ ?_ ?_ ?_
    · exact le_refl 0
    · intro _
      exact ⟨rfl, rfl, rfl⟩
    · intro hbv
      exact absurd hbv (by simp [BufDesc.Clear])
    · intro e he hei
      rw [← c4'] at he
      exact absurd hei (hrem_no_self h c3' e he)

theorem flushFileAux_fullInv {file : Nat} {rem : Nat} :
    ∀ {i : Nat} {m : BufMgr} {d : Disk}, FullInv m →
      FullInv (BufMgr.flushFileAux file i rem m d).2.1 := by
  induction rem with
  | zero =>
    intro i m d h
    rw [BufMgr.flushFileAux]
    exact h
  | succ rem ih =>
    intro i m d h
    simp only [BufMgr.flushFileAux]
    by_cases hcond : (frameAt m i).valid = true ∧ (frameAt m i).file = some file
    · rw [if_pos hcond]
      by_cases hpin : 0 < (frameAt m i).pinCnt
      · rw [if_pos hpin]
        exact h
      · rw [if_neg hpin]
        by_cases hwfail : (if (frameAt m i).dirty = true
            then d.writePage file (frameAt m i).pageNo (poolAt m i)
            else (Status.OK, d)).1 ≠ Status.OK
        · rw [if_pos hwfail]
          exact h
        · rw [if_neg hwfail]
          apply ih
          have hfr : i < m.bufTable.length := frameAt_valid_lt hcond.1
          refine fullInv_setFrame
            (fullInv_removeHash file (frameAt m i).pageNo h) hfr ?_ ?_ ?_ ?_
          · show 0 ≤ (frameAt m i).pinCnt
            exact h.2.1 i
          · intro _
            refine ⟨?_, rfl, rfl⟩
            show (frameAt m i).pinCnt = 0
            have := h.2.1 i
            omega
          · intro hbv
            have hbv2 : (false : Bool) = true := hbv
            exact absurd hbv2 (by decide)
          · intro e he hei
            exact absurd hei (hrem_no_self h hcond.2 e he)
    · rw [if_neg hcond]
      by_cases hbad : (frameAt m i).valid = false ∧ (frameAt m i).file = some file
      · rw [if_pos hbad]
        exact h
      · rw [if_neg hbad]
        exact ih h

theorem flushFile_fullInv {m : BufMgr} {d : Disk} {f : Nat} (h : FullInv m) :
    FullInv (m.flushFile d f).2.1 := by
  rw [BufMgr.flushFile]
  exact flushFileAux_fullInv h

theorem pinsNonneg_of_ball {m : BufMgr}
    (h : ∀ i < m.bufTable.length, 0 ≤ (frameAt m i).pinCnt) : pinsNonneg m := by
  intro i
  by_cases hi : i < m.bufTable.length
  · exact h i hi
  · rw [frameAt_default m i (le_of_not_lt hi)]
    decide

theorem validOwned_of_ball {m : BufMgr}
    (h : ∀ i < m.bufTable.length, (frameAt m i).valid = true → (frameAt m i).file ≠ none) :
    validOwned m := by
  intro i
  by_cases hi : i < m.bufTable.length
  · exact h i hi
  · rw [frameAt_default m i (le_of_not_lt hi)]
    decide

theorem invalidClean_of_ball {m : BufMgr}
    (h : ∀ i < m.bufTable.length, (frameAt m i).valid = false →
      (frameAt m i).pinCnt = 0 ∧ (frameAt m i).dirty = false ∧ (frameAt m i).file = none) :
    invalidClean m := by
  intro i
  by_cases hi : i < m.bufTable.length
  · exact h i hi
  · rw [frameAt_default m i (le_of_not_lt hi)]
    decide

/-- The full invariant follows from its decidable bounded form, making it
checkable on concrete states. -/
theorem fullInv_of_ball {m : BufMgr}
    (h1 : m.bufTable.length = m.numBufs) (h2 : m.bufPool.length = m.numBufs)
    (h3 : m.clockHand < m.numBufs)
    (h4 : ∀ i < m.bufTable.length, 0 ≤ (frameAt m i).pinCnt)
    (h5 : ∀ i < m.bufTable.length, (frameAt m i).valid = true → (frameAt m i).file ≠ none)
    (h6 : ∀ e ∈ m.hashTable, e.2 < m.numBufs ∧ (frameAt m e.2).valid = true ∧
      (frameAt m e.2).file = some e.1.1 ∧ (frameAt m e.2).pageNo = e.1.2)
    (h7 : ∀ i < m.bufTable.length, (frameAt m i).valid = false →
      (frameAt m i).pinCnt = 0 ∧ (frameAt m i).dirty = false ∧ (frameAt m i).file = none)
    (h8 : (m.hashTable.map Prod.fst).Nodup) : FullInv m :=
  ⟨⟨h1, h2, h3⟩, pinsNonneg_of_ball h4, validOwned_of_ball h5, h6,
    invalidClean_of_ball h7, h8⟩

/-- C1: a frame with `pinCount > 0` is never selected as the eviction
victim. Whenever `allocBuf` returns `OK` with frame `fr`, that frame was
invalid or had pin count 0 at selection time (the sweep changes no pin
count or validity before selecting, so entry-state values are
selection-time values). Concretely: with a pool of 2 frames and both
resident pages pinned, a third fetch of a distinct page returns
`BUFFEREXCEEDED` and both pinned frames remain resident and pinned. -/
theorem C1_no_pinned_victim :
    (∀ (m : BufMgr) (d : Disk) (fr : Nat) (m' : BufMgr) (d' : Disk),
      pinsNonneg m →
      m.allocBuf d = (Status.OK, fr, m', d') →
      (frameAt m fr).valid = false ∨ (frameAt m fr).pinCnt = 0) ∧
    (fetchC.1 = Status.BUFFEREXCEEDED ∧
     (frameAt fetchB.2.2.1 0).pinCnt = 1 ∧ (frameAt fetchB.2.2.1 1).pinCnt = 1 ∧
     (frameAt fetchC.2.2.1 0).valid = true ∧ (frameAt fetchC.2.2.1 0).pinCnt = 1 ∧
     (frameAt fetchC.2.2.1 0).pageNo = 2 ∧
     (frameAt fetchC.2.2.1 1).valid = true ∧ (frameAt fetchC.2.2.1 1).pinCnt = 1 ∧
     (frameAt fetchC.2.2.1 1).pageNo = 1) := by
  constructor
  · intro m d fr m' d' hpins h
    rw [BufMgr.allocBuf] at h
    have hop := allocBufAux_ok h
    rcases hop.2.2.2.2 with ⟨hv, -⟩ | ⟨-, hple, -⟩
    · exact Or.inl hv
    · right
      have := hpins fr
      omega
  · decide

theorem C1_no_pinned_victim_witness :
    (frameAt (BufMgr.init 1) ((BufMgr.init 1).allocBuf testDisk).2.1).valid = false ∨
    (frameAt (BufMgr.init 1) ((BufMgr.init 1).allocBuf testDisk).2.1).pinCnt = 0 :=
  C1_no_pinned_victim.1 (BufMgr.init 1) testDisk
    ((BufMgr.init 1).allocBuf testDisk).2.1
    ((BufMgr.init 1).allocBuf testDisk).2.2.1
    ((BufMgr.init 1).allocBuf testDisk).2.2.2
    (pinsNonneg_of_ball (by decide))
    rfl

/-- C2: the sweep's examination budget is `2 * N` (it is the fuel of
`allocBufAux`, mirroring the C loop counter, so `allocBuf` always
terminates and reports `BUFFEREXCEEDED` exactly when the budget is spent
without a selection). When every frame is valid and pinned, the sweep
always exhausts: `allocBuf` returns `BUFFEREXCEEDED`, a fetch of any
non-resident page returns `BUFFEREXCEEDED`, and so does a new-page
allocation whose disk reservation succeeded. Concretely, with 2 frames
and 2 pinned pages, the third distinct fetch returns `BUFFEREXCEEDED`. -/
theorem C2_pool_exhaustion :
    (∀ (m : BufMgr) (d : Disk),
      WF m →
      (∀ i < m.numBufs, (frameAt m i).valid = true ∧ 0 < (frameAt m i).pinCnt) →
      (m.allocBuf d).1 = Status.BUFFEREXCEEDED) ∧
    (∀ (m : BufMgr) (d : Disk) (f : Nat) (p : Int),
      WF m →
      (∀ i < m.numBufs, (frameAt m i).valid = true ∧ 0 < (frameAt m i).pinCnt) →
      htLookup m.hashTable f p = none →
      (m.readPage d f p).1 = Status.BUFFEREXCEEDED) ∧
    (∀ (m : BufMgr) (d : Disk) (f : Nat),
      WF m →
      (∀ i < m.numBufs, (frameAt m i).valid = true ∧ 0 < (frameAt m i).pinCnt) →
      d.allocFails f = false →
      (m.allocPage d f).1 = Status.BUFFEREXCEEDED) ∧
    fetchC.1 = Status.BUFFEREXCEEDED := by
  refine ⟨?_, ?_, ?_, by decide⟩
  · intro m d hwf hall
    exact allocBufAux_all_pinned hwf.1 hwf.2.2 hall
  · intro m d f p hwf hall hlk
    rcases ha : m.allocBuf d with ⟨st, fr, m1, d1⟩
    have hst : st = Status.BUFFEREXCEEDED := by
      have hb : (m.allocBuf d).1 = Status.BUFFEREXCEEDED :=
        allocBufAux_all_pinned hwf.1 hwf.2.2 hall
      rw [ha] at hb
      exact hb
    subst hst
    simp [BufMgr.readPage, hlk, ha]
  · intro m d f hwf hall hnf
    rcases ha : m.allocBuf
        { d with nextPage := fun F => if F = f then d.nextPage F + 1 else d.nextPage F }
        with ⟨st, fr, m1, d1⟩
    have hst : st = Status.BUFFEREXCEEDED := by
      have hb : (BufMgr.allocBufAux (2 * m.numBufs) m
          { d with nextPage := fun F =>
              if F = f then d.nextPage F + 1 else d.nextPage F }).1
          = Status.BUFFEREXCEEDED :=
        allocBufAux_all_pinned hwf.1 hwf.2.2 hall
      rw [BufMgr.allocBuf] at ha
      rw [ha] at hb
      exact hb
    subst hst
    simp [BufMgr.allocPage, Disk.allocatePage, hnf, ha]

theorem C2_pool_exhaustion_witness :
    (fetchB.2.2.1.readPage fetchB.2.2.2 0 3).1 = Status.BUFFEREXCEEDED :=
  C2_pool_exhaustion.2.1 fetchB.2.2.1 fetchB.2.2.2 0 3
    ⟨by decide, by decide, by decide⟩ (by decide) (by decide)

/-- When the sweep exhausts its budget (`BUFFEREXCEEDED`), the state is
core-unchanged and the disk is untouched. -/
theorem allocBufAux_exceeded {fuel : Nat} {m : BufMgr} {d : Disk} {fr : Nat}
    {m' : BufMgr} {d' : Disk}
    (h : BufMgr.allocBufAux fuel m d = (Status.BUFFEREXCEEDED, fr, m', d')) :
    sameCore m m' ∧ d' = d := by
  induction fuel generalizing m with
  | zero =>
    rw [BufMgr.allocBufAux] at h
    simp only [Prod.mk.injEq] at h
    obtain ⟨-, -, h3, h4⟩ := h
    subst h3
    subst h4
    exact ⟨sameCore_refl m, rfl⟩
  | succ fuel ih =>
    rw [BufMgr.allocBufAux] at h
    by_cases hv : (frameAt m m.clockHand).valid = false
    · rw [if_pos hv] at h
      simp at h
    · rw [if_neg hv] at h
      have hvt : (frameAt m m.clockHand).valid = true := by simpa using hv
      have hlt : m.clockHand < m.bufTable.length := frameAt_valid_lt hvt
      by_cases hr : (frameAt m m.clockHand).refbit = true
      · rw [if_pos hr] at h
        obtain ⟨hs, hd⟩ := ih h
        exact ⟨sameCore_trans (sameCore_clearRef m hlt) hs, hd⟩
      · rw [if_neg hr] at h
        by_cases hp : 0 < (frameAt m m.clockHand).pinCnt
        · rw [if_pos hp] at h
          obtain ⟨hs, hd⟩ := ih h
          exact ⟨sameCore_trans (sameCore_advance m) hs, hd⟩
        · rw [if_neg hp] at h
          split at h
          · simp at h
          · next f heq =>
            by_cases hd : (frameAt m m.clockHand).dirty = true
            · rw [if_pos hd] at h
              by_cases hw :
                  (d.writePage f (frameAt m m.clockHand).pageNo (poolAt m m.clockHand)).1
                    ≠ Status.OK
              · rw [if_pos hw] at h
                simp at h
              · rw [if_neg hw] at h
                simp at h
            · rw [if_neg hd] at h
              simp at h

/-- C3: when the sweep reaches an unpinned, unreferenced, dirty victim and
the write-back through the file contract fails, `allocBuf` returns the
write-failure error (`UNIXERR`) with no partial eviction: the Page Index
is unchanged, every frame keeps its validity, pin count, dirty bit, owner
file and page number (so the victim is still valid, dirty and owned by the
same page), and the disk contents are unchanged. -/
theorem C3_write_failure_no_partial_eviction :
    ∀ (m : BufMgr) (d : Disk) (fr : Nat) (m' : BufMgr) (d' : Disk),
      validOwned m →
      m.allocBuf d = (Status.UNIXERR, fr, m', d') →
      m'.hashTable = m.hashTable ∧
      framesCoreEq m m' ∧
      (frameAt m' m'.clockHand).valid = true ∧
      (frameAt m' m'.clockHand).dirty = true ∧
      d'.data = d.data := by
  intro m d fr m' d' hown h
  rw [BufMgr.allocBuf] at h
  obtain ⟨hs, hv, hd, hp, hdata⟩ := allocBufAux_unixerr hown h
  exact ⟨hs.2.2.2.1, hs.2.2.2.2, hv, hd, hdata⟩

theorem C3_write_failure_no_partial_eviction_witness :
    (dirtyOneState.allocBuf failWriteDisk).2.2.1.hashTable = dirtyOneState.hashTable ∧
    framesCoreEq dirtyOneState (dirtyOneState.allocBuf failWriteDisk).2.2.1 ∧
    (frameAt (dirtyOneState.allocBuf failWriteDisk).2.2.1
      (dirtyOneState.allocBuf failWriteDisk).2.2.1.clockHand).valid = true ∧
    (frameAt (dirtyOneState.allocBuf failWriteDisk).2.2.1
      (dirtyOneState.allocBuf failWriteDisk).2.2.1.clockHand).dirty = true ∧
    (dirtyOneState.allocBuf failWriteDisk).2.2.2.data = failWriteDisk.data :=
  C3_write_failure_no_partial_eviction dirtyOneState failWriteDisk
    (dirtyOneState.allocBuf failWriteDisk).2.1
    (dirtyOneState.allocBuf failWriteDisk).2.2.1
    (dirtyOneState.allocBuf failWriteDisk).2.2.2
    (validOwned_of_ball (by decide))
    rfl

/-- C9: evicting a valid dirty victim performs exactly one write-back of
the frame's current buffer content through the file contract (one entry is
appended to the write log and the disk contents at that page become the
buffer content); evicting a non-dirty victim touches the disk not at all.
Concretely, in the round-trip scenario (fetch page 1, overwrite its buffer
with 777, unpin dirty, evict by fetching page 2, fetch page 1 again) the
whole run performs exactly one write call, `(5, 1, 777)`, and the re-fetch
returns the written content 777 rather than the stale disk content 1051. -/
theorem C9_dirty_eviction_roundtrip :
    (∀ (m : BufMgr) (d : Disk) (fr : Nat) (m' : BufMgr) (d' : Disk),
      m.allocBuf d = (Status.OK, fr, m', d') →
      (frameAt m fr).valid = true →
      (frameAt m fr).dirty = true →
      ∃ F, (frameAt m fr).file = some F ∧
        d'.log = d.log ++ [(F, (frameAt m fr).pageNo, poolAt m fr)] ∧
        d'.data F (frameAt m fr).pageNo = poolAt m fr) ∧
    (∀ (m : BufMgr) (d : Disk) (fr : Nat) (m' : BufMgr) (d' : Disk),
      m.allocBuf d = (Status.OK, fr, m', d') →
      (frameAt m fr).dirty = false →
      d' = d) ∧
    (rt5.1 = Status.OK ∧ rt5.2.1 = some 0 ∧ poolAt rt5.2.2.1 0 = 777 ∧
     rt5.2.2.2.log = [(5, 1, 777)] ∧ testDisk.data 5 1 = 1051) := by
  refine ⟨?_, ?_, by decide⟩
  · intro m d fr m' d' h hval hdirty
    rw [BufMgr.allocBuf] at h
    have hop := allocBufAux_ok h
    rcases hop.2.2.2.2 with ⟨hvf, -⟩ | ⟨-, -, -, -, -, -, -, F, hfile, -, hdw, -⟩
    · rw [hval] at hvf
      exact absurd hvf (by decide)
    · obtain ⟨hlog, hdata⟩ := hdw hdirty
      refine ⟨F, hfile, hlog, ?_⟩
      rw [hdata]
      simp
  · intro m d fr m' d' h hdirty
    rw [BufMgr.allocBuf] at h
    have hop := allocBufAux_ok h
    rcases hop.2.2.2.2 with ⟨-, -, hdd, -⟩ | ⟨-, -, -, -, -, -, -, F, -, -, -, hnd⟩
    · exact hdd
    · exact hnd hdirty

theorem C9_dirty_eviction_roundtrip_witness :
    (dirtyOneState.allocBuf testDisk).2.2.2.log = testDisk.log ++ [(0, 1, 42)] ∧
    (dirtyOneState.allocBuf testDisk).2.2.2.data 0 1 = 42 := by
  have h := C9_dirty_eviction_roundtrip.1 dirtyOneState testDisk
    (dirtyOneState.allocBuf testDisk).2.1
    (dirtyOneState.allocBuf testDisk).2.2.1
    (dirtyOneState.allocBuf testDisk).2.2.2
    rfl (by decide) (by decide)
  obtain ⟨F, hF, hlog, hdata⟩ := h
  have hfile : (frameAt dirtyOneState (dirtyOneState.allocBuf testDisk).2.1).file
      = some 0 := by decide
  rw [hfile] at hF
  have hF0 : F = 0 := (Option.some.inj hF).symm
  subst hF0
  have hpn : (frameAt dirtyOneState (dirtyOneState.allocBuf testDisk).2.1).pageNo
      = 1 := by decide
  have hpl : poolAt dirtyOneState (dirtyOneState.allocBuf testDisk).2.1 = 42 := by decide
  rw [hpn, hpl] at hlog hdata
  exact ⟨hlog, hdata⟩

/-- C10: when `allocBuf` fails with `BUFFEREXCEEDED`, no frame's validity,
pin count, dirty bit, owner file or page number has changed, the Page
Index is untouched and the disk is untouched; yet the failed call is not
fully side-effect free — concretely, the failed third fetch of the
two-frame pinned scenario clears both frames' reference bits (set before
the call, cleared after) while leaving the Page Index unchanged. -/
theorem C10_exhausted_sweep_effects :
    (∀ (m : BufMgr) (d : Disk) (fr : Nat) (m' : BufMgr) (d' : Disk),
      m.allocBuf d = (Status.BUFFEREXCEEDED, fr, m', d') →
      m'.hashTable = m.hashTable ∧ d' = d ∧ framesCoreEq m m') ∧
    (fetchC.1 = Status.BUFFEREXCEEDED ∧
     (frameAt fetchB.2.2.1 0).refbit = true ∧ (frameAt fetchB.2.2.1 1).refbit = true ∧
     (frameAt fetchC.2.2.1 0).refbit = false ∧ (frameAt fetchC.2.2.1 1).refbit = false ∧
     fetchC.2.2.1.hashTable = fetchB.2.2.1.hashTable) := by
  refine ⟨?_, by decide⟩
  intro m d fr m' d' h
  rw [BufMgr.allocBuf] at h
  obtain ⟨hs, hd⟩ := allocBufAux_exceeded h
  exact ⟨hs.2.2.2.1, hd, hs.2.2.2.2⟩

theorem C10_exhausted_sweep_effects_witness :
    (fetchB.2.2.1.allocBuf fetchB.2.2.2).2.2.1.hashTable = fetchB.2.2.1.hashTable ∧
    (fetchB.2.2.1.allocBuf fetchB.2.2.2).2.2.2 = fetchB.2.2.2 ∧
    framesCoreEq fetchB.2.2.1 (fetchB.2.2.1.allocBuf fetchB.2.2.2).2.2.1 :=
  C10_exhausted_sweep_effects.1 fetchB.2.2.1 fetchB.2.2.2
    (fetchB.2.2.1.allocBuf fetchB.2.2.2).2.1
    (fetchB.2.2.1.allocBuf fetchB.2.2.2).2.2.1
    (fetchB.2.2.1.allocBuf fetchB.2.2.2).2.2.2
    rfl

/-- Postcondition of a successful fetch miss: the returned frame is
published in the Page Index and initialized by `Set` (pin count 1, valid,
referenced, owned by the fetched page). -/
theorem readPage_miss_ok {m : BufMgr} {d : Disk} {f : Nat} {p : Int}
    {fro : Option Nat} {m1 : BufMgr} {d1 : Disk}
    (hwf : WF m)
    (hl : htLookup m.hashTable f p = none)
    (h : m.readPage d f p = (Status.OK, fro, m1, d1)) :
    ∃ fr, fro = some fr ∧ fr < m1.bufTable.length ∧
      htLookup m1.hashTable f p = some fr ∧
      (frameAt m1 fr).pinCnt = 1 ∧ (frameAt m1 fr).valid = true ∧
      (frameAt m1 fr).file = some f ∧ (frameAt m1 fr).pageNo = p ∧
      (frameAt m1 fr).refbit = true := by
  rcases ha : m.allocBuf d with ⟨st, fr, ma, da⟩
  by_cases hst : st = Status.OK
  · subst hst
    rw [BufMgr.allocBuf] at ha
    have hop := allocBufAux_ok ha
    have hfra : fr < ma.bufTable.length := by
      rw [hop.2.1, hwf.1]
      exact allocBufAux_fr_lt hwf.1 hwf.2.2 ha
    have hlka : htLookup ma.hashTable f p = none := by
      rcases hop.2.2.2.2 with ⟨-, hh, -, -⟩ | ⟨-, -, -, -, -, -, -, F, -, hh, -, -⟩
      · rw [hh]; exact hl
      · rw [hh]; exact htLookup_htRemove_none hl
    by_cases hrd : da.readFails f p = true
    · exfalso
      have : m.readPage d f p = (Status.UNIXERR, none,
          setFrame ma fr (frameAt ma fr).Clear, da) := by
        simp [BufMgr.readPage, hl, BufMgr.allocBuf, ha, Disk.readPage, hrd]
      rw [this] at h
      simp at h
    · have hrd' : da.readFails f p = false := by simpa using hrd
      have heq : m.readPage d f p = (Status.OK, some fr,
          setFrame { setPool ma fr (da.readPage f p).2 with
              hashTable := ((f, p), fr) :: (setPool ma fr (da.readPage f p).2).hashTable }
            fr ((frameAt (setPool ma fr (da.readPage f p).2) fr).Set f p), da) := by
        simp [BufMgr.readPage, hl, BufMgr.allocBuf, ha, Disk.readPage, hrd',
          htInsert, hlka, setPool, setFrame, frameAt]
      rw [heq] at h
      simp only [Prod.mk.injEq] at h
      obtain ⟨-, h2, h3, -⟩ := h
      have hself : frameAt (setFrame { setPool ma fr (da.readPage f p).2 with
          hashTable := ((f, p), fr) :: (setPool ma fr (da.readPage f p).2).hashTable }
          fr ((frameAt (setPool ma fr (da.readPage f p).2) fr).Set f p)) fr
          = (frameAt (setPool ma fr (da.readPage f p).2) fr).Set f p :=
        frameAt_setFrame_self _ hfra
      refine ⟨fr, h2.symm, ?_, ?_, ?_, ?_, ?_, ?_, ?_⟩
      · rw [← h3]
        simpa using hfra
      · rw [← h3]
        show htLookup (((f, p), fr) :: ma.hashTable) f p = some fr
        simp [htLookup]
      · rw [← h3, hself]
        rfl
      · rw [← h3, hself]
        rfl
      · rw [← h3, hself]
        rfl
      · rw [← h3, hself]
        rfl
      · rw [← h3, hself]
        rfl
  · exfalso
    have : (m.readPage d f p).1 = st := by
      simp [BufMgr.readPage, hl, ha, hst]
    rw [h] at this
    exact hst this.symm

/-- C4: a fetch hit on a resident page sets the frame's reference bit,
increments its pin count by exactly 1, returns the same resident frame,
and performs no disk I/O (the disk state is returned unchanged, so no
read, write or log entry happens); all other frames, the Page Index and
the buffer pool are untouched. Consequently, fetching the same page twice
without an intervening unpin (a miss followed by a hit) returns the same
frame both times and leaves its pin count at 2. -/
theorem C4_hit_semantics :
    (∀ (m : BufMgr) (d : Disk) (f : Nat) (p : Int) (fr : Nat),
      WF m → hashConsistent m →
      htLookup m.hashTable f p = some fr →
      (m.readPage d f p).1 = Status.OK ∧
      (m.readPage d f p).2.1 = some fr ∧
      (m.readPage d f p).2.2.2 = d ∧
      (frameAt (m.readPage d f p).2.2.1 fr).refbit = true ∧
      (frameAt (m.readPage d f p).2.2.1 fr).pinCnt = (frameAt m fr).pinCnt + 1 ∧
      (∀ j, j ≠ fr → frameAt (m.readPage d f p).2.2.1 j = frameAt m j) ∧
      (m.readPage d f p).2.2.1.hashTable = m.hashTable ∧
      (m.readPage d f p).2.2.1.bufPool = m.bufPool) ∧
    (∀ (m : BufMgr) (d : Disk) (f : Nat) (p : Int) (fro : Option Nat)
        (m1 : BufMgr) (d1 : Disk),
      WF m →
      htLookup m.hashTable f p = none →
      m.readPage d f p = (Status.OK, fro, m1, d1) →
      ∃ fr, fro = some fr ∧
        (m1.readPage d1 f p).1 = Status.OK ∧
        (m1.readPage d1 f p).2.1 = some fr ∧
        (frameAt (m1.readPage d1 f p).2.2.1 fr).pinCnt = 2) := by
  constructor
  · intro m d f p fr hwf hcons hl
    have hmem := htLookup_mem hl
    obtain ⟨c1, -, -, -⟩ := hcons _ hmem
    have hfr : fr < m.bufTable.length := by
      rw [hwf.1]
      exact c1
    have heq : m.readPage d f p = (Status.OK, some fr,
        setFrame m fr
          { frameAt m fr with refbit := true, pinCnt := (frameAt m fr).pinCnt + 1 }, d) := by
      simp [BufMgr.readPage, hl]
    rw [heq]
    have hself : frameAt (setFrame m fr
        { frameAt m fr with refbit := true, pinCnt := (frameAt m fr).pinCnt + 1 }) fr
        = { frameAt m fr with refbit := true, pinCnt := (frameAt m fr).pinCnt + 1 } :=
      frameAt_setFrame_self _ hfr
    refine ⟨rfl, rfl, rfl, ?_, ?_, ?_, rfl, rfl⟩
    · rw [hself]
    · rw [hself]
    · intro j hj
      exact frameAt_setFrame_ne _ _ hj
  · intro m d f p fro m1 d1 hwf hl h
    obtain ⟨fr, hfro, hfr1, hlk1, hpin1, -, -, -, -⟩ := readPage_miss_ok hwf hl h
    have heq2 : m1.readPage d1 f p = (Status.OK, some fr,
        setFrame m1 fr
          { frameAt m1 fr with refbit := true, pinCnt := (frameAt m1 fr).pinCnt + 1 },
        d1) := by
      simp [BufMgr.readPage, hlk1]
    have hself : frameAt (setFrame m1 fr
        { frameAt m1 fr with refbit := true, pinCnt := (frameAt m1 fr).pinCnt + 1 }) fr
        = { frameAt m1 fr with refbit := true, pinCnt := (frameAt m1 fr).pinCnt + 1 } :=
      frameAt_setFrame_self _ hfr1
    refine ⟨fr, hfro, ?_, ?_, ?_⟩
    · rw [heq2]
    · rw [heq2]
    · rw [heq2, hself]
      show (frameAt m1 fr).pinCnt + 1 = 2
      rw [hpin1]
      decide

theorem C4_hit_semantics_witness :
    ((fetchA.2.2.1.readPage fetchA.2.2.2 0 1).1 = Status.OK ∧
     (fetchA.2.2.1.readPage fetchA.2.2.2 0 1).2.1 = some 1 ∧
     (fetchA.2.2.1.readPage fetchA.2.2.2 0 1).2.2.2 = fetchA.2.2.2 ∧
     (frameAt (fetchA.2.2.1.readPage fetchA.2.2.2 0 1).2.2.1 1).refbit = true ∧
     (frameAt (fetchA.2.2.1.readPage fetchA.2.2.2 0 1).2.2.1 1).pinCnt
       = (frameAt fetchA.2.2.1 1).pinCnt + 1 ∧
     (fetchA.2.2.1.readPage fetchA.2.2.2 0 1).2.2.1.hashTable = fetchA.2.2.1.hashTable ∧
     (fetchA.2.2.1.readPage fetchA.2.2.2 0 1).2.2.1.bufPool = fetchA.2.2.1.bufPool) := by
  have h := C4_hit_semantics.1 fetchA.2.2.1 fetchA.2.2.2 0 1 1
    ⟨by decide, by decide, by decide⟩ (by unfold hashConsistent; decide) (by decide)
  exact ⟨h.1, h.2.1, h.2.2.1, h.2.2.2.1, h.2.2.2.2.1,
    h.2.2.2.2.2.2.1, h.2.2.2.2.2.2.2⟩

/-- C5: on a fetch miss, when the victim frame was allocated but the disk
read of the requested page fails, `readPage` surfaces the read error
(`UNIXERR`), returns no page handle, leaves the allocated frame in the
unused state (invalid, pin count 0, clean, ownerless), and publishes no
Page Index entry for the requested key. -/
theorem C5_failed_read_not_cached :
    ∀ (m : BufMgr) (d : Disk) (f : Nat) (p : Int) (fr : Nat) (m1 : BufMgr) (d1 : Disk),
      WF m →
      htLookup m.hashTable f p = none →
      m.allocBuf d = (Status.OK, fr, m1, d1) →
      d.readFails f p = true →
      (m.readPage d f p).1 = Status.UNIXERR ∧
      (m.readPage d f p).2.1 = none ∧
      (frameAt (m.readPage d f p).2.2.1 fr).valid = false ∧
      (frameAt (m.readPage d f p).2.2.1 fr).pinCnt = 0 ∧
      (frameAt (m.readPage d f p).2.2.1 fr).dirty = false ∧
      (frameAt (m.readPage d f p).2.2.1 fr).file = none ∧
      htLookup (m.readPage d f p).2.2.1.hashTable f p = none := by
  intro m d f p fr m1 d1 hwf hl ha hrf
  have ha' := ha
  rw [BufMgr.allocBuf] at ha'
  have hop := allocBufAux_ok ha'
  have hfr1 : fr < m1.bufTable.length := by
    rw [hop.2.1, hwf.1]
    exact allocBufAux_fr_lt hwf.1 hwf.2.2 ha'
  have hrf1 : d1.readFails f p = true := by
    rw [(allocBufAux_disk_oracles ha').1]
    exact hrf
  have heq : m.readPage d f p = (Status.UNIXERR, none,
      setFrame m1 fr (frameAt m1 fr).Clear, d1) := by
    simp [BufMgr.readPage, hl, ha, Disk.readPage, hrf1]
  rw [heq]
  have hself : frameAt (setFrame m1 fr (frameAt m1 fr).Clear) fr
      = (frameAt m1 fr).Clear := frameAt_setFrame_self _ hfr1
  refine ⟨rfl, rfl, ?_, ?_, ?_, ?_, ?_⟩
  · rw [hself]; rfl
  · rw [hself]; rfl
  · rw [hself]; rfl
  · rw [hself]; rfl
  · show htLookup m1.hashTable f p = none
    rcases hop.2.2.2.2 with ⟨-, hh, -, -⟩ | ⟨-, -, -, -, -, -, -, F, -, hh, -, -⟩
    · rw [hh]; exact hl
    · rw [hh]; exact htLookup_htRemove_none hl

theorem C5_failed_read_not_cached_witness :
    ((BufMgr.init 1).readPage failReadDisk 7 3).1 = Status.UNIXERR ∧
    ((BufMgr.init 1).readPage failReadDisk 7 3).2.1 = none ∧
    (frameAt ((BufMgr.init 1).readPage failReadDisk 7 3).2.2.1 0).valid = false ∧
    (frameAt ((BufMgr.init 1).readPage failReadDisk 7 3).2.2.1 0).pinCnt = 0 ∧
    (frameAt ((BufMgr.init 1).readPage failReadDisk 7 3).2.2.1 0).dirty = false ∧
    (frameAt ((BufMgr.init 1).readPage failReadDisk 7 3).2.2.1 0).file = none ∧
    htLookup ((BufMgr.init 1).readPage failReadDisk 7 3).2.2.1.hashTable 7 3 = none :=
  C5_failed_read_not_cached (BufMgr.init 1) failReadDisk 7 3 0
    ((BufMgr.init 1).allocBuf failReadDisk).2.2.1
    ((BufMgr.init 1).allocBuf failReadDisk).2.2.2
    ⟨by decide, by decide, by decide⟩ (by decide) rfl (by decide)

/-- C6: `unPinPage` returns `HASHNOTFOUND` for a non-resident page and
`PAGENOTPINNED` when the frame's pin count is already 0, leaving the
whole state unchanged in both error cases (so the pin count is never
driven negative); otherwise it returns `OK`, decrements the pin count by
exactly 1 and sets `dirty` to `dirty || markDirty` — it sets the dirty
bit exactly when `markDirty` is true and never clears it — touching no
other frame field, frame, index entry or pool buffer. Non-negativity of
pin counts is preserved by every call. -/
theorem C6_unpin_semantics :
    (∀ (m : BufMgr) (f : Nat) (p : Int) (md : Bool),
      htLookup m.hashTable f p = none →
      m.unPinPage f p md = (Status.HASHNOTFOUND, m)) ∧
    (∀ (m : BufMgr) (f : Nat) (p : Int) (md : Bool) (fr : Nat),
      htLookup m.hashTable f p = some fr →
      (frameAt m fr).pinCnt = 0 →
      m.unPinPage f p md = (Status.PAGENOTPINNED, m)) ∧
    (∀ (m : BufMgr) (f : Nat) (p : Int) (md : Bool) (fr : Nat),
      WF m → hashConsistent m →
      htLookup m.hashTable f p = some fr →
      (frameAt m fr).pinCnt ≠ 0 →
      (m.unPinPage f p md).1 = Status.OK ∧
      (frameAt (m.unPinPage f p md).2 fr).pinCnt = (frameAt m fr).pinCnt - 1 ∧
      (frameAt (m.unPinPage f p md).2 fr).dirty = ((frameAt m fr).dirty || md) ∧
      (frameAt (m.unPinPage f p md).2 fr).valid = (frameAt m fr).valid ∧
      (frameAt (m.unPinPage f p md).2 fr).file = (frameAt m fr).file ∧
      (frameAt (m.unPinPage f p md).2 fr).pageNo = (frameAt m fr).pageNo ∧
      (frameAt (m.unPinPage f p md).2 fr).refbit = (frameAt m fr).refbit ∧
      (∀ j, j ≠ fr → frameAt (m.unPinPage f p md).2 j = frameAt m j) ∧
      (m.unPinPage f p md).2.hashTable = m.hashTable ∧
      (m.unPinPage f p md).2.bufPool = m.bufPool ∧
      (m.unPinPage f p md).2.clockHand = m.clockHand) ∧
    (∀ (m : BufMgr) (f : Nat) (p : Int) (md : Bool),
      WF m → hashConsistent m → pinsNonneg m →
      pinsNonneg (m.unPinPage f p md).2) := by
  refine ⟨?_, ?_, ?_, ?_⟩
  · intro m f p md hl
    simp [BufMgr.unPinPage, hl]
  · intro m f p md fr hl hp0
    simp [BufMgr.unPinPage, hl, hp0]
  · intro m f p md fr hwf hcons hl hp0
    have hmem := htLookup_mem hl
    obtain ⟨c1, -, -, -⟩ := hcons _ hmem
    have hfr : fr < m.bufTable.length := by
      rw [hwf.1]
      exact c1
    by_cases hmd : md = true
    · subst hmd
      have heq : m.unPinPage f p true = (Status.OK, setFrame m fr
          { frameAt m fr with pinCnt := (frameAt m fr).pinCnt - 1, dirty := true }) := by
        simp [BufMgr.unPinPage, hl, hp0]
      rw [heq]
      have hself := frameAt_setFrame_self
        { frameAt m fr with pinCnt := (frameAt m fr).pinCnt - 1, dirty := true } hfr
      refine ⟨rfl, ?_, ?_, ?_, ?_, ?_, ?_, ?_, rfl, rfl, rfl⟩
      · rw [hself]
      · rw [hself]
        simp
      · rw [hself]
      · rw [hself]
      · rw [hself]
      · rw [hself]
      · intro j hj
        exact frameAt_setFrame_ne _ _ hj
    · have hmd' : md = false := by simpa using hmd
      subst hmd'
      have heq : m.unPinPage f p false = (Status.OK, setFrame m fr
          { frameAt m fr with pinCnt := (frameAt m fr).pinCnt - 1 }) := by
        simp [BufMgr.unPinPage, hl, hp0]
      rw [heq]
      have hself := frameAt_setFrame_self
        { frameAt m fr with pinCnt := (frameAt m fr).pinCnt - 1 } hfr
      refine ⟨rfl, ?_, ?_, ?_, ?_, ?_, ?_, ?_, rfl, rfl, rfl⟩
      · rw [hself]
      · rw [hself]
        simp
      · rw [hself]
      · rw [hself]
      · rw [hself]
      · rw [hself]
      · intro j hj
        exact frameAt_setFrame_ne _ _ hj
  · intro m f p md hwf hcons hpins
    cases hl : htLookup m.hashTable f p with
    | none =>
      have heq : (m.unPinPage f p md).2 = m := by
        simp [BufMgr.unPinPage, hl]
      rw [heq]
      exact hpins
    | some fr =>
      have hmem := htLookup_mem hl
      obtain ⟨c1, -, -, -⟩ := hcons _ hmem
      have hfr : fr < m.bufTable.length := by
        rw [hwf.1]
        exact c1
      by_cases hp0 : (frameAt m fr).pinCnt = 0
      · have heq : (m.unPinPage f p md).2 = m := by
          simp [BufMgr.unPinPage, hl, hp0]
        rw [heq]
        exact hpins
      · have hge : 0 ≤ (frameAt m fr).pinCnt := hpins fr
        by_cases hmd : md = true
        · subst hmd
          have heq : (m.unPinPage f p true).2 = setFrame m fr
              { frameAt m fr with pinCnt := (frameAt m fr).pinCnt - 1, dirty := true } := by
            simp [BufMgr.unPinPage, hl, hp0]
          rw [heq]
          intro j
          by_cases hj : j = fr
          · rw [hj, frameAt_setFrame_self _ hfr]
            show 0 ≤ (frameAt m fr).pinCnt - 1
            omega
          · rw [frameAt_setFrame_ne _ _ hj]
            exact hpins j
        · have hmd' : md = false := by simpa using hmd
          subst hmd'
          have heq : (m.unPinPage f p false).2 = setFrame m fr
              { frameAt m fr with pinCnt := (frameAt m fr).pinCnt - 1 } := by
            simp [BufMgr.unPinPage, hl, hp0]
          rw [heq]
          intro j
          by_cases hj : j = fr
          · rw [hj, frameAt_setFrame_self _ hfr]
            show 0 ≤ (frameAt m fr).pinCnt - 1
            omega
          · rw [frameAt_setFrame_ne _ _ hj]
            exact hpins j

theorem C6_unpin_semantics_witness :
    ((fetchA.2.2.1.unPinPage 0 1 true).1 = Status.OK ∧
     (frameAt (fetchA.2.2.1.unPinPage 0 1 true).2 1).pinCnt
       = (frameAt fetchA.2.2.1 1).pinCnt - 1 ∧
     (frameAt (fetchA.2.2.1.unPinPage 0 1 true).2 1).dirty
       = ((frameAt fetchA.2.2.1 1).dirty || true) ∧
     (frameAt (fetchA.2.2.1.unPinPage 0 1 true).2 1).valid
       = (frameAt fetchA.2.2.1 1).valid ∧
     (frameAt (fetchA.2.2.1.unPinPage 0 1 true).2 1).file
       = (frameAt fetchA.2.2.1 1).file ∧
     (frameAt (fetchA.2.2.1.unPinPage 0 1 true).2 1).pageNo
       = (frameAt fetchA.2.2.1 1).pageNo ∧
     (frameAt (fetchA.2.2.1.unPinPage 0 1 true).2 1).refbit
       = (frameAt fetchA.2.2.1 1).refbit ∧
     (fetchA.2.2.1.unPinPage 0 1 true).2.hashTable = fetchA.2.2.1.hashTable ∧
     (fetchA.2.2.1.unPinPage 0 1 true).2.bufPool = fetchA.2.2.1.bufPool ∧
     (fetchA.2.2.1.unPinPage 0 1 true).2.clockHand = fetchA.2.2.1.clockHand) := by
  have h := C6_unpin_semantics.2.2.1 fetchA.2.2.1 0 1 true 1
    ⟨by decide, by decide, by decide⟩ (by unfold hashConsistent; decide)
    (by decide) (by decide)
  exact ⟨h.1, h.2.1, h.2.2.1, h.2.2.2.1, h.2.2.2.2.1, h.2.2.2.2.2.1,
    h.2.2.2.2.2.2.1, h.2.2.2.2.2.2.2.2.1, h.2.2.2.2.2.2.2.2.2.1,
    h.2.2.2.2.2.2.2.2.2.2⟩

/-- C8: `disposePage` on a resident page forces its frame to the unused
state and removes its Page Index entry unconditionally — there is no pin
count hypothesis, so this holds even for a pinned page — and then invokes
the file contract's dispose, returning that call's status and disk state
to the caller. -/
theorem C8_dispose_unconditional :
    ∀ (m : BufMgr) (d : Disk) (f : Nat) (p : Int) (fr : Nat),
      WF m → hashConsistent m → hashKeysUnique m →
      htLookup m.hashTable f p = some fr →
      (m.disposePage d f p).1 = (d.disposePage f p).1 ∧
      (m.disposePage d f p).2.2 = (d.disposePage f p).2 ∧
      (frameAt (m.disposePage d f p).2.1 fr).valid = false ∧
      (frameAt (m.disposePage d f p).2.1 fr).pinCnt = 0 ∧
      (frameAt (m.disposePage d f p).2.1 fr).dirty = false ∧
      (frameAt (m.disposePage d f p).2.1 fr).file = none ∧
      htLookup (m.disposePage d f p).2.1.hashTable f p = none ∧
      (∀ j, j ≠ fr → frameAt (m.disposePage d f p).2.1 j = frameAt m j) := by
  intro m d f p fr hwf hcons hku hl
  have hmem := htLookup_mem hl
  obtain ⟨c1, -, -, -⟩ := hcons _ hmem
  have hfr : fr < m.bufTable.length := by
    rw [hwf.1]
    exact c1
  have heq : (m.disposePage d f p).2.1 =
      setFrame { m with hashTable := (htRemove m.hashTable f p).2 } fr
        (frameAt m fr).Clear := by
    simp [BufMgr.disposePage, hl, setFrame, frameAt]
  have hself : frameAt (setFrame { m with hashTable := (htRemove m.hashTable f p).2 } fr
      (frameAt m fr).Clear) fr = (frameAt m fr).Clear := frameAt_setFrame_self _ hfr
  refine ⟨rfl, rfl, ?_, ?_, ?_, ?_, ?_, ?_⟩
  · rw [heq, hself]; rfl
  · rw [heq, hself]; rfl
  · rw [heq, hself]; rfl
  · rw [heq, hself]; rfl
  · rw [heq]
    show htLookup (htRemove m.hashTable f p).2 f p = none
    exact htLookup_htRemove_self hku
  · intro j hj
    rw [heq, frameAt_setFrame_ne _ _ hj]
    rfl

theorem C8_dispose_unconditional_witness :
    ((fetchA.2.2.1.disposePage fetchA.2.2.2 0 1).1
       = (fetchA.2.2.2.disposePage 0 1).1 ∧
     (fetchA.2.2.1.disposePage fetchA.2.2.2 0 1).2.2
       = (fetchA.2.2.2.disposePage 0 1).2 ∧
     (frameAt (fetchA.2.2.1.disposePage fetchA.2.2.2 0 1).2.1 1).valid = false ∧
     (frameAt (fetchA.2.2.1.disposePage fetchA.2.2.2 0 1).2.1 1).pinCnt = 0 ∧
     (frameAt (fetchA.2.2.1.disposePage fetchA.2.2.2 0 1).2.1 1).dirty = false ∧
     (frameAt (fetchA.2.2.1.disposePage fetchA.2.2.2 0 1).2.1 1).file = none ∧
     htLookup (fetchA.2.2.1.disposePage fetchA.2.2.2 0 1).2.1.hashTable 0 1 = none) := by
  have h := C8_dispose_unconditional fetchA.2.2.1 fetchA.2.2.2 0 1 1
    ⟨by decide, by decide, by decide⟩ (by unfold hashConsistent; decide)
    (by unfold hashKeysUnique; decide) (by decide)
  exact ⟨h.1, h.2.1, h.2.2.1, h.2.2.2.1, h.2.2.2.2.1, h.2.2.2.2.2.1,
    h.2.2.2.2.2.2.1⟩

/-- C7: every public operation of the buffer manager — fetch (`readPage`),
unpin, allocate-new-page, dispose, flush-file, and the replacement engine
(`allocBuf`) — preserves the state invariant: every invalid frame has pin
count 0, a clear dirty bit and no owner (`invalidClean`), and at most one
frame is mapped by the Page Index to any (file, pageNumber) key
(`hashKeysUnique`); together these form `ClaimedInv`. The invariant is
carried as part of `FullInv`, which adds the auxiliary facts needed to
re-establish it across calls (well-formed sizes, non-negative pins, owned
valid frames, index/frame consistency) and is itself preserved. -/
theorem C7_invariant_preservation :
    (∀ m : BufMgr, FullInv m → ClaimedInv m) ∧
    (∀ (m : BufMgr) (d : Disk) (f : Nat) (p : Int),
      FullInv m → FullInv (m.readPage d f p).2.2.1) ∧
    (∀ (m : BufMgr) (f : Nat) (p : Int) (md : Bool),
      FullInv m → FullInv (m.unPinPage f p md).2) ∧
    (∀ (m : BufMgr) (d : Disk) (f : Nat),
      FullInv m → FullInv (m.allocPage d f).2.2.2.1) ∧
    (∀ (m : BufMgr) (d : Disk) (f : Nat) (p : Int),
      FullInv m → FullInv (m.disposePage d f p).2.1) ∧
    (∀ (m : BufMgr) (d : Disk) (f : Nat),
      FullInv m → FullInv (m.flushFile d f).2.1) ∧
    (∀ (m : BufMgr) (d : Disk),
      FullInv m → FullInv (m.allocBuf d).2.2.1) :=
  ⟨fun _ h => h.2.2.2.2,
   fun _ _ _ _ h => readPage_fullInv h,
   fun _ _ _ _ h => unPinPage_fullInv h,
   fun _ _ _ h => allocPage_fullInv h,
   fun _ _ _ _ h => disposePage_fullInv h,
   fun _ _ _ h => flushFile_fullInv h,
   fun _ _ h => allocBuf_fullInv h⟩

theorem C7_invariant_preservation_witness :
    FullInv ((BufMgr.init 2).readPage testDisk 0 1).2.2.1 :=
  C7_invariant_preservation.2.1 (BufMgr.init 2) testDisk 0 1
    (fullInv_of_ball (by decide) (by decide) (by decide) (by decide) (by decide)
      (by decide) (by decide) (by decide))
